import Mathlib

/-!
Verification of the `mdbg` stack-inspection engine
(`src/bin/mdbg/src/main.rs`) against its specification.

The development shallowly embeds the two core functions of the source:

* `get_thread_trace` — the frame-pointer stack walker (source lines 86-142);
* `cmd_print_stacks` — the debug-session controller
  (attach / pause / enumerate+snapshot / resume / detach, lines 175-262).

The debug syscall transport (`moto_sys::SysRay`) is not part of the
repository's sources; it is modelled from the specification's interface
table (spec §6).  Machine integers (`u64`) are modelled as `Nat` with
explicit reduction modulo `2 ^ 64` where overflow can occur.
Panics (`unwrap`, `assert!`, `assert_eq!`) are modelled as `none` /
`panicked` outcomes, so that "the program aborts" is observable.
-/

namespace Mdbg

/-- The modulus of `u64` arithmetic, `2 ^ 64`. -/
def U64 : Nat := 2 ^ 64

/-- Source: `const BT_DEPTH: usize = 64;` (line 45). -/
def BT_DEPTH : Nat := 64

/-- Source: `moto_sys::stats::ThreadDataV1` — the fields used by `mdbg`:
tid, status, ip, rbp, syscall_num, syscall_op (all `u64`-valued). -/
structure ThreadDataV1 where
  tid : Nat
  status : Nat
  ip : Nat
  rbp : Nat
  syscall_num : Nat
  syscall_op : Nat
deriving DecidableEq, Repr

/-- A trace of the remote reads issued by the walker: each entry is the
address passed to `SysRay::dbg_get_mem` together with the channel's answer
(`none` = `Err`, `some (v, sz)` = `Ok(sz)` with the 8-byte buffer decoding
to `v`). -/
abbrev ReadTrace := List (Nat × Option (Nat × Nat))

/-- The loop of `get_thread_trace` (source lines 99-139).  `fuel` is the
number of remaining iterations of `for idx in 0..BT_DEPTH`; `prev`/`rbp`
are the mutable locals; `acc` is the sequence of backtrace slots written
so far (the source writes `backtrace[idx]` at consecutive indices);
`tr` accumulates the reads issued.  The result is `none` exactly when an
`assert_eq!(sz, 8)` fires (a panic); otherwise `some (acc, tr)`. -/
def walkLoop (getMem : Nat → Option (Nat × Nat)) :
    Nat → Nat → Nat → List Nat → ReadTrace → Option (List Nat × ReadTrace)
  | 0, _, _, acc, tr => some (acc, tr)
  | fuel + 1, prev, rbp, acc, tr =>
    if prev = rbp then some (acc, tr)
    else if rbp = 0 then some (acc, tr)
    else if rbp < 1024 * 64 then some (acc, tr)
    else
      match getMem ((rbp + 8) % U64) with
      | none => some (acc, tr ++ [((rbp + 8) % U64, none)])
      | some (v, sz) =>
        if sz = 8 then
          match getMem rbp with
          | none =>
              some (acc ++ [v % U64],
                tr ++ [((rbp + 8) % U64, some (v, sz)), (rbp, none)])
          | some (v2, sz2) =>
            if sz2 = 8 then
              walkLoop getMem fuel rbp (v2 % U64) (acc ++ [v % U64])
                (tr ++ [((rbp + 8) % U64, some (v, sz)), (rbp, some (v2, sz2))])
            else none
        else none

/-- The fixed-capacity backtrace array: slots written so far followed by
the untouched `0` sentinels (the source initializes `[0; BT_DEPTH]`). -/
def mkBacktrace (acc : List Nat) : List Nat :=
  acc ++ List.replicate (BT_DEPTH - acc.length) 0

/-- Source `get_thread_trace` (lines 86-142), instrumented with the trace
of remote reads.  `none` models a panic (a failed `assert_eq!(sz, 8)`). -/
def get_thread_traceT (getMem : Nat → Option (Nat × Nat)) (td : ThreadDataV1) :
    Option (List Nat × ReadTrace) :=
  if td.rbp = 0 then some (mkBacktrace [], [])
  else (walkLoop getMem BT_DEPTH 0 td.rbp [] []).map
    (fun r => (mkBacktrace r.1, r.2))

/-- Source `get_thread_trace`: just the returned backtrace. -/
def get_thread_trace (getMem : Nat → Option (Nat × Nat)) (td : ThreadDataV1) :
    Option (List Nat) :=
  (get_thread_traceT getMem td).map Prod.fst

/-- Number of displayed return addresses of a backtrace: the consumer
(`print_stack_trace`, lines 159-169) stops at the first `0` sentinel. -/
def btEntries (bt : List Nat) : Nat := (bt.takeWhile (fun a => a ≠ 0)).length

/-- The return addresses of the frame chain `f` starting at frame `j`,
for `k` frames: `[ip j, ip (j+1), ..., ip (j+k-1)]`. -/
def ipsSeg (ip : Nat → Nat) : Nat → Nat → List Nat
  | _, 0 => []
  | j, k + 1 => ip j :: ipsSeg ip (j + 1) k

/-- The reads issued while unwinding `k` frames of the chain `f` starting
at frame `j`: for each frame, first the return-address read at `f i + 8`,
then the next-frame-pointer read at `f i`. -/
def trSeg (f ip : Nat → Nat) : Nat → Nat → ReadTrace
  | _, 0 => []
  | j, k + 1 =>
    (f j + 8, some (ip j, 8)) :: (f j, some (f (j + 1), 8)) :: trSeg f ip (j + 1) k

/-- The value of the walker's `prev` local after unwinding `k` frames of
chain `f` starting at frame `j`, if it was `prev` before. -/
def prevAfter (prev : Nat) (f : Nat → Nat) (j : Nat) : Nat → Nat
  | 0 => prev
  | k + 1 => f (j + k)

lemma ipsSeg_length (ip : Nat → Nat) : ∀ k j, (ipsSeg ip j k).length = k := by
  intro k
  induction k with
  | zero => intro j; rfl
  | succ n ih => intro j; simp [ipsSeg, ih]

lemma ipsSeg_snoc (ip : Nat → Nat) : ∀ k j, ipsSeg ip j (k + 1) = ipsSeg ip j k ++ [ip (j + k)] := by
  intro k
  induction k with
  | zero => intro j; simp [ipsSeg]
  | succ n ih =>
    intro j
    show ip j :: ipsSeg ip (j + 1) (n + 1) = (ip j :: ipsSeg ip (j + 1) n) ++ _
    rw [ih (j + 1)]
    simp [Nat.add_assoc, Nat.add_comm 1 n]

lemma walkLoop_stop_cycle (getMem : Nat → Option (Nat × Nat)) (m rbp : Nat)
    (acc : List Nat) (tr : ReadTrace) :
    walkLoop getMem (m + 1) rbp rbp acc tr = some (acc, tr) := by
  simp [walkLoop]

lemma walkLoop_stop_zero (getMem : Nat → Option (Nat × Nat)) (m prev : Nat)
    (acc : List Nat) (tr : ReadTrace) (hne : prev ≠ 0) :
    walkLoop getMem (m + 1) prev 0 acc tr = some (acc, tr) := by
  simp [walkLoop, hne]

lemma walkLoop_stop_low (getMem : Nat → Option (Nat × Nat)) (m prev rbp : Nat)
    (acc : List Nat) (tr : ReadTrace) (hne : prev ≠ rbp) (h0 : rbp ≠ 0)
    (hlow : rbp < 1024 * 64) :
    walkLoop getMem (m + 1) prev rbp acc tr = some (acc, tr) := by
  simp [walkLoop, hne, h0, hlow]

/-- Unwinding a clean segment of a frame chain: if `k` consecutive frames
starting at frame `j` are all plausible (at or above the 64 KiB threshold),
all reads on them succeed with size 8, and no two consecutive frame
pointers are equal, then the walker's loop advances `k` iterations,
appending the `k` return addresses and issuing the corresponding reads. -/
lemma walkLoop_advance (getMem : Nat → Option (Nat × Nat)) (f ip : Nat → Nat) :
    ∀ (k fuel j prev : Nat) (acc : List Nat) (tr : ReadTrace),
      k ≤ fuel →
      (∀ i, i < k → 65536 ≤ f (j + i)) →
      (∀ i, i < k → f (j + i) + 8 < U64) →
      (∀ i, i < k → getMem (f (j + i) + 8) = some (ip (j + i), 8)) →
      (∀ i, i < k → ip (j + i) < U64) →
      (∀ i, i < k → getMem (f (j + i)) = some (f (j + i + 1), 8)) →
      (∀ i, i < k → f (j + i + 1) < U64) →
      (0 < k → prev ≠ f j) →
      (∀ i, i + 1 < k → f (j + i) ≠ f (j + i + 1)) →
      walkLoop getMem fuel prev (f j) acc tr =
        walkLoop getMem (fuel - k) (prevAfter prev f j k) (f (j + k))
          (acc ++ ipsSeg ip j k) (tr ++ trSeg f ip j k) := by
  intro k
  induction k with
  | zero =>
    intro fuel j prev acc tr _ _ _ _ _ _ _ _ _
    simp [prevAfter, ipsSeg, trSeg]
  | succ n ih =>
    intro fuel j prev acc tr hfuel hbig hofl hipr hipv hnxt hnv hprev hne
    match fuel, hfuel with
    | fuel + 1, hfuel =>
      have hb0 : 65536 ≤ f j := by simpa using hbig 0 (Nat.succ_pos n)
      have hp : prev ≠ f j := hprev (Nat.succ_pos n)
      have h0 : f j ≠ 0 := by omega
      have hlow : ¬ f j < 1024 * 64 := by omega
      have hmod : (f j + 8) % U64 = f j + 8 :=
        Nat.mod_eq_of_lt (by simpa using hofl 0 (Nat.succ_pos n))
      have hr1 : getMem (f j + 8) = some (ip j, 8) := by simpa using hipr 0 (Nat.succ_pos n)
      have hr2 : getMem (f j) = some (f (j + 1), 8) := by simpa using hnxt 0 (Nat.succ_pos n)
      have hipm : ip j % U64 = ip j :=
        Nat.mod_eq_of_lt (by simpa using hipv 0 (Nat.succ_pos n))
      have hfm : f (j + 1) % U64 = f (j + 1) :=
        Nat.mod_eq_of_lt (by simpa using hnv 0 (Nat.succ_pos n))
      have step : walkLoop getMem (fuel + 1) prev (f j) acc tr =
          walkLoop getMem fuel (f j) (f (j + 1))
            (acc ++ [ip j])
            (tr ++ [(f j + 8, some (ip j, 8)), (f j, some (f (j + 1), 8))]) := by
        rw [walkLoop]
        rw [if_neg hp, if_neg h0, if_neg hlow, hmod, hr1]
        simp only [if_pos rfl, hr2, hipm, hfm]
        simp
      rw [step]
      have ihx := ih fuel (j + 1) (f j) (acc ++ [ip j])
        (tr ++ [(f j + 8, some (ip j, 8)), (f j, some (f (j + 1), 8))])
        (by omega)
        (fun i hi => by
          have := hbig (i + 1) (by omega)
          simpa [Nat.add_assoc, Nat.add_comm 1 i] using this)
        (fun i hi => by
          have := hofl (i + 1) (by omega)
          simpa [Nat.add_assoc, Nat.add_comm 1 i] using this)
        (fun i hi => by
          have := hipr (i + 1) (by omega)
          simpa [Nat.add_assoc, Nat.add_comm 1 i] using this)
        (fun i hi => by
          have := hipv (i + 1) (by omega)
          simpa [Nat.add_assoc, Nat.add_comm 1 i] using this)
        (fun i hi => by
          have := hnxt (i + 1) (by omega)
          simpa [Nat.add_assoc, Nat.add_comm 1 i] using this)
        (fun i hi => by
          have := hnv (i + 1) (by omega)
          simpa [Nat.add_assoc, Nat.add_comm 1 i] using this)
        (fun hn => by
          have := hne 0 (by omega)
          simpa using this)
        (fun i hi => by
          have := hne (i + 1) (by omega)
          simpa [Nat.add_assoc, Nat.add_comm 1 i] using this)
      rw [ihx]
      have e1 : fuel - n = fuel + 1 - (n + 1) := by omega
      have e2 : prevAfter (f j) f (j + 1) n = prevAfter prev f j (n + 1) := by
        cases n with
        | zero => simp [prevAfter]
        | succ m => simp [prevAfter, Nat.add_assoc, Nat.add_comm 1 m]
      have e3 : f (j + 1 + n) = f (j + (n + 1)) := by
        rw [Nat.add_assoc, Nat.add_comm 1 n]
      have e4 : acc ++ [ip j] ++ ipsSeg ip (j + 1) n = acc ++ ipsSeg ip j (n + 1) := by
        simp [ipsSeg]
      have e5 : tr ++ [(f j + 8, some (ip j, 8)), (f j, some (f (j + 1), 8))] ++
          trSeg f ip (j + 1) n = tr ++ trSeg f ip j (n + 1) := by
        simp [trSeg]
      rw [e1, e2, e3, e4, e5]

lemma mem_ipsSeg (ip : Nat → Nat) :
    ∀ k j a, a ∈ ipsSeg ip j k → ∃ i, i < k ∧ a = ip (j + i) := by
  intro k
  induction k with
  | zero => intro j a h; simp [ipsSeg] at h
  | succ n ih =>
    intro j a h
    rcases List.mem_cons.mp h with rfl | h
    · exact ⟨0, Nat.succ_pos n, by simp⟩
    · obtain ⟨i, hi, he⟩ := ih (j + 1) a h
      exact ⟨i + 1, by omega, by simpa [Nat.add_assoc, Nat.add_comm 1 i] using he⟩

lemma btEntries_append_zeros (l : List Nat) (m : Nat) (h : ∀ a ∈ l, a ≠ 0) :
    btEntries (l ++ List.replicate m 0) = l.length := by
  induction l with
  | nil =>
    cases m with
    | zero => rfl
    | succ m => simp [btEntries, List.takeWhile]
  | cons a l ih =>
    have ha : a ≠ 0 := h a (List.mem_cons_self a l)
    have ih' := ih (fun b hb => h b (List.mem_cons_of_mem a hb))
    simp only [List.cons_append, btEntries, List.takeWhile, decide_not] at ih' ⊢
    simp [ha, ih']

lemma mkBacktrace_seg (ip : Nat → Nat) (k : Nat) :
    mkBacktrace (ipsSeg ip 0 k) = ipsSeg ip 0 k ++ List.replicate (BT_DEPTH - k) 0 := by
  simp [mkBacktrace, ipsSeg_length]

/-- First stop case of the loop body: the return-address read fails. -/
lemma walkLoop_fail_ret (getMem : Nat → Option (Nat × Nat)) (m prev rbp : Nat)
    (acc : List Nat) (tr : ReadTrace) (hprev : prev ≠ rbp) (hbig : 65536 ≤ rbp)
    (hofl : rbp + 8 < U64) (hfail : getMem (rbp + 8) = none) :
    walkLoop getMem (m + 1) prev rbp acc tr = some (acc, tr ++ [(rbp + 8, none)]) := by
  have h0 : rbp ≠ 0 := by omega
  have hlow : ¬ rbp < 1024 * 64 := by omega
  have hmod : (rbp + 8) % U64 = rbp + 8 := Nat.mod_eq_of_lt hofl
  rw [walkLoop, if_neg hprev, if_neg h0, if_neg hlow, hmod, hfail]

/-- Second stop case of the loop body: the next-frame-pointer read fails,
after the return address was already appended. -/
lemma walkLoop_fail_next (getMem : Nat → Option (Nat × Nat)) (m prev rbp v : Nat)
    (acc : List Nat) (tr : ReadTrace) (hprev : prev ≠ rbp) (hbig : 65536 ≤ rbp)
    (hofl : rbp + 8 < U64) (hr1 : getMem (rbp + 8) = some (v, 8)) (hv : v < U64)
    (hfail : getMem rbp = none) :
    walkLoop getMem (m + 1) prev rbp acc tr =
      some (acc ++ [v], tr ++ [(rbp + 8, some (v, 8)), (rbp, none)]) := by
  have h0 : rbp ≠ 0 := by omega
  have hlow : ¬ rbp < 1024 * 64 := by omega
  have hmod : (rbp + 8) % U64 = rbp + 8 := Nat.mod_eq_of_lt hofl
  have hvm : v % U64 = v := Nat.mod_eq_of_lt hv
  rw [walkLoop, if_neg hprev, if_neg h0, if_neg hlow, hmod, hr1]
  simp [hfail, hvm]

/-- Reduction of the whole walker on a clean `L`-frame chain: after the
`L` unwinding iterations the loop sits at frame pointer `f L` with `prev`
equal to `f (L-1)` and the `L` return addresses appended. -/
lemma get_thread_traceT_advance (getMem : Nat → Option (Nat × Nat)) (td : ThreadDataV1)
    (f ip : Nat → Nat) (L : Nat) (hL : L ≤ BT_DEPTH) (hrbp : td.rbp = f 0)
    (hbig : ∀ i, i < L → 65536 ≤ f i)
    (hofl : ∀ i, i < L → f i + 8 < U64)
    (hipr : ∀ i, i < L → getMem (f i + 8) = some (ip i, 8))
    (hipv : ∀ i, i < L → ip i < U64)
    (hnxt : ∀ i, i < L → getMem (f i) = some (f (i + 1), 8))
    (hnv : ∀ i, i < L → f (i + 1) < U64)
    (hne : ∀ i, i + 1 < L → f i ≠ f (i + 1))
    (hb0 : 65536 ≤ f 0) :
    get_thread_traceT getMem td =
      (walkLoop getMem (BT_DEPTH - L) (prevAfter 0 f 0 L) (f L)
        (ipsSeg ip 0 L) (trSeg f ip 0 L)).map (fun r => (mkBacktrace r.1, r.2)) := by
  have h0 : td.rbp ≠ 0 := by rw [hrbp]; omega
  have adv := walkLoop_advance getMem f ip L BT_DEPTH 0 0 [] [] hL
    (fun i hi => by simpa using hbig i hi)
    (fun i hi => by simpa using hofl i hi)
    (fun i hi => by simpa using hipr i hi)
    (fun i hi => by simpa using hipv i hi)
    (fun i hi => by simpa using hnxt i hi)
    (fun i hi => by simpa using hnv i hi)
    (fun _ => by omega)
    (fun i hi => by simpa using hne i hi)
  unfold get_thread_traceT
  rw [if_neg h0, hrbp]
  simp only [Nat.zero_add] at adv
  rw [adv]
  simp

/-- The walker on a clean `L`-frame chain that afterwards stops, either
because the next frame pointer is the `0` terminator or because it equals
the previous frame pointer (the period-1 cycle guard). -/
lemma get_thread_traceT_chain (getMem : Nat → Option (Nat × Nat)) (td : ThreadDataV1)
    (f ip : Nat → Nat) (L : Nat) (hL0 : 0 < L) (hL : L ≤ BT_DEPTH) (hrbp : td.rbp = f 0)
    (hbig : ∀ i, i < L → 65536 ≤ f i)
    (hofl : ∀ i, i < L → f i + 8 < U64)
    (hipr : ∀ i, i < L → getMem (f i + 8) = some (ip i, 8))
    (hipv : ∀ i, i < L → ip i < U64)
    (hnxt : ∀ i, i < L → getMem (f i) = some (f (i + 1), 8))
    (hnv : ∀ i, i < L → f (i + 1) < U64)
    (hne : ∀ i, i + 1 < L → f i ≠ f (i + 1))
    (hstop : f L = 0 ∨ f L = f (L - 1)) :
    get_thread_traceT getMem td = some (mkBacktrace (ipsSeg ip 0 L), trSeg f ip 0 L) := by
  have hb0 : 65536 ≤ f 0 := hbig 0 hL0
  rw [get_thread_traceT_advance getMem td f ip L hL hrbp hbig hofl hipr hipv hnxt hnv hne hb0]
  obtain ⟨l, rfl⟩ : ∃ l, L = l + 1 := ⟨L - 1, by omega⟩
  have hprev : prevAfter 0 f 0 (l + 1) = f l := by simp [prevAfter]
  rcases Nat.eq_or_lt_of_le hL with heq | hlt
  · have : BT_DEPTH - (l + 1) = 0 := by omega
    rw [this, hprev]
    rfl
  · obtain ⟨m, hm⟩ : ∃ m, BT_DEPTH - (l + 1) = m + 1 := ⟨BT_DEPTH - (l + 1) - 1, by omega⟩
    rw [hm, hprev]
    rcases hstop with hz | hc
    · rw [hz, walkLoop_stop_zero getMem m (f l) _ _ (by have := hbig l (by omega); omega)]
      rfl
    · have hc' : f (l + 1) = f l := by simpa using hc
      rw [hc', walkLoop_stop_cycle]
      rfl

/-! ### Concrete debuggee memories used as counterexample / witness inputs -/

/-- Debuggee memory with a period-2 frame-pointer cycle below the 64 KiB
threshold (`0x1000 → 0x2000 → 0x1000`, the spec's own example) and the same
cycle shifted above the threshold (`0x10000 → 0x20000 → 0x10000`). -/
def memCyc : Nat → Option (Nat × Nat) := fun a =>
  if a = 0x1008 then some (0xAA, 8)
  else if a = 0x1000 then some (0x2000, 8)
  else if a = 0x2008 then some (0xBB, 8)
  else if a = 0x2000 then some (0x1000, 8)
  else if a = 0x10008 then some (0xAA, 8)
  else if a = 0x10000 then some (0x20000, 8)
  else if a = 0x20008 then some (0xBB, 8)
  else if a = 0x20000 then some (0x10000, 8)
  else none

/-- Debuggee memory with an immediate self-cycle at `0x10000`. -/
def memSelf : Nat → Option (Nat × Nat) := fun a =>
  if a = 0x10008 then some (0xAA, 8)
  else if a = 0x10000 then some (0x10000, 8)
  else none

/-- Debuggee memory for a 2-frame chain `0x10000 → 0x20000 → 0` with
return addresses `0xAA`, `0xAB`. -/
def memChain2 : Nat → Option (Nat × Nat) := fun a =>
  if a = 0x10008 then some (0xAA, 8)
  else if a = 0x10000 then some (0x20000, 8)
  else if a = 0x20008 then some (0xAB, 8)
  else if a = 0x20000 then some (0, 8)
  else none

/-- Debuggee memory where the walk's first two reads succeed and its third
read (the return-address read of the second frame) fails. -/
def memFail3 : Nat → Option (Nat × Nat) := fun a =>
  if a = 0x10008 then some (0xAA, 8)
  else if a = 0x10000 then some (0x20000, 8)
  else none

/-! ### C10 — tiny nonzero frame pointer: all-zero backtrace, no reads -/

/-- C10: for every thread snapshot whose frame-pointer register is nonzero
but below 65536 (= 1024*64, the minimum-plausible-stack threshold),
`get_thread_trace` returns the all-zero 64-slot backtrace and issues no
remote read at all (empty read trace). -/
theorem claim_C10_low_rbp_no_reads (getMem : Nat → Option (Nat × Nat))
    (td : ThreadDataV1) (h1 : 0 < td.rbp) (h2 : td.rbp < 65536) :
    get_thread_traceT getMem td = some (List.replicate BT_DEPTH 0, []) := by
  have h0 : td.rbp ≠ 0 := by omega
  have hstop : walkLoop getMem BT_DEPTH 0 td.rbp [] [] = some ([], []) := by
    have h := walkLoop_stop_low getMem 63 0 td.rbp [] [] (by omega) h0 (by omega)
    simpa [BT_DEPTH] using h
  unfold get_thread_traceT
  rw [if_neg h0, hstop]
  simp [mkBacktrace, BT_DEPTH]

/-- Witness for C10 at the concrete frame pointer 5. -/
theorem claim_C10_witness :
    0 < (5 : Nat) ∧ (5 : Nat) < 65536 ∧
      get_thread_traceT (fun _ => none) (⟨1, 0, 0, 5, 0, 0⟩ : ThreadDataV1) =
        some (List.replicate BT_DEPTH 0, []) :=
  ⟨by decide, by decide,
    claim_C10_low_rbp_no_reads (fun _ => none) ⟨1, 0, 0, 5, 0, 0⟩ (by decide) (by decide)⟩

/-! ### C5 — the walker's fatal path on short successful reads -/

/-- Counterexample to C5 as stated: a channel read that reports success
with size 7 instead of the requested 8 makes `get_thread_trace` hit
`assert_eq!(sz, 8)` (modelled as `none` = panic), so the walker does have
a fatal path for that channel behavior. -/
theorem claim_C5_counterexample :
    get_thread_traceT (fun _ => some (0, 7)) (⟨1, 0, 0, 65536, 0, 0⟩ : ThreadDataV1) =
      none := by decide

/-- If every successful read of the channel reports the contracted size 8,
the walker's only panic source (`assert_eq!(sz, 8)`) can never fire, so
the walk always produces a result. -/
lemma get_thread_traceT_isSome_of_size8 (getMem : Nat → Option (Nat × Nat))
    (td : ThreadDataV1) (h8 : ∀ a v s, getMem a = some (v, s) → s = 8) :
    ∃ bt tr, get_thread_traceT getMem td = some (bt, tr) := by
  have main : ∀ fuel prev rbp acc tr,
      (walkLoop getMem fuel prev rbp acc tr).isSome = true := by
    intro fuel
    induction fuel with
    | zero => intro prev rbp acc tr; rfl
    | succ n ih =>
      intro prev rbp acc tr
      by_cases h1 : prev = rbp
      · simp [walkLoop, h1]
      by_cases h2 : rbp = 0
      · simp [walkLoop, h1, h2]
      by_cases h3 : rbp < 1024 * 64
      · simp [walkLoop, h1, h2, h3]
      rcases hm : getMem ((rbp + 8) % U64) with _ | ⟨v, sz⟩
      · simp [walkLoop, h1, h2, h3, hm]
      · have hsz : sz = 8 := h8 _ _ _ hm
        subst hsz
        rcases hm2 : getMem rbp with _ | ⟨v2, sz2⟩
        · simp [walkLoop, h1, h2, h3, hm, hm2]
        · have hsz2 : sz2 = 8 := h8 _ _ _ hm2
          subst hsz2
          simp [walkLoop, h1, h2, h3, hm, hm2, ih]
  unfold get_thread_traceT
  by_cases h : td.rbp = 0
  · exact ⟨_, _, by rw [if_pos h]⟩
  · rw [if_neg h]
    obtain ⟨r, hr⟩ := Option.isSome_iff_exists.mp (main BT_DEPTH 0 td.rbp [] [])
    exact ⟨_, _, by rw [hr]; rfl⟩

/-- C5 as amended: for every thread snapshot and every channel behavior in
which a successful read always reports the requested size 8, the walker
never panics: it always returns a (possibly truncated) backtrace. -/
theorem claim_C5_no_fatal_path (getMem : Nat → Option (Nat × Nat)) (td : ThreadDataV1)
    (h8 : ∀ a v s, getMem a = some (v, s) → s = 8) :
    ∃ bt tr, get_thread_traceT getMem td = some (bt, tr) :=
  get_thread_traceT_isSome_of_size8 getMem td h8

/-- Witness for the amended C5 on a channel that always fails its reads. -/
theorem claim_C5_witness :
    ∃ bt tr,
      get_thread_traceT (fun _ => none) (⟨1, 0, 0, 70000, 0, 0⟩ : ThreadDataV1) =
        some (bt, tr) :=
  claim_C5_no_fatal_path (fun _ => none) ⟨1, 0, 0, 70000, 0, 0⟩
    (fun a v s h => by simp at h)

/-! ### C4 — cycle guard only catches period-1 cycles -/

set_option maxRecDepth 8192 in
/-- Counterexample to C4 as stated.  First, the claim's own example
`0x1000 → 0x2000 → 0x1000` does not yield a 1-entry backtrace: those frame
pointers are below the 64 KiB plausibility threshold, so the walk stops at
once with an all-zero backtrace (0 displayed entries, and no reads at
all).  Second, even moved above the threshold, a period-2 cycle is not
caught by the guard (which only compares with the immediately preceding
frame pointer): the walk runs to `MAX_DEPTH` and returns 64 entries, not
k = 2. -/
theorem claim_C4_counterexample :
    (get_thread_trace memCyc (⟨1, 0, 0, 0x1000, 0, 0⟩ : ThreadDataV1) =
        some (List.replicate BT_DEPTH 0) ∧
      btEntries (List.replicate BT_DEPTH 0) = 0 ∧ (0 : Nat) ≠ 1) ∧
    ((get_thread_trace memCyc (⟨1, 0, 0, 0x10000, 0, 0⟩ : ThreadDataV1)).map btEntries =
        some 64 ∧ (64 : Nat) ≠ 2) := by decide

/-- C4 as amended: the cycle guard detects exactly the period-1 cycles.
If a frame chain of `k` plausible frames (all at/above 65536, reads
succeeding with size 8) reaches at step `k` a next frame pointer equal to
the current one (`f k = f (k-1)`), the walk stops after exactly `k`
appended return addresses; the `0x1000→0x2000→0x1000` example instead
yields 0 entries (threshold) and an above-threshold period-2 cycle runs to
depth 64 (see the counterexample). -/
theorem claim_C4_period1_cycle_guard (getMem : Nat → Option (Nat × Nat))
    (td : ThreadDataV1) (f ip : Nat → Nat) (k : Nat)
    (hk0 : 0 < k) (hk : k ≤ BT_DEPTH) (hrbp : td.rbp = f 0)
    (hbig : ∀ i, i < k → 65536 ≤ f i)
    (hofl : ∀ i, i < k → f i + 8 < U64)
    (hipr : ∀ i, i < k → getMem (f i + 8) = some (ip i, 8))
    (hipv : ∀ i, i < k → ip i < U64)
    (hipnz : ∀ i, i < k → ip i ≠ 0)
    (hnxt : ∀ i, i < k → getMem (f i) = some (f (i + 1), 8))
    (hnv : ∀ i, i < k → f (i + 1) < U64)
    (hne : ∀ i, i + 1 < k → f i ≠ f (i + 1))
    (hcyc : f k = f (k - 1)) :
    get_thread_trace getMem td =
      some (ipsSeg ip 0 k ++ List.replicate (BT_DEPTH - k) 0) ∧
    btEntries (ipsSeg ip 0 k ++ List.replicate (BT_DEPTH - k) 0) = k := by
  have h := get_thread_traceT_chain getMem td f ip k hk0 hk hrbp hbig hofl hipr hipv
    hnxt hnv hne (Or.inr hcyc)
  constructor
  · unfold get_thread_trace
    rw [h, mkBacktrace_seg]
    rfl
  · rw [btEntries_append_zeros _ _ (fun a ha => by
      obtain ⟨i, hi, rfl⟩ := mem_ipsSeg ip k 0 a ha
      exact hipnz (0 + i) (by omega))]
    exact ipsSeg_length ip k 0

/-- Witness for the amended C4: a 1-frame immediate self-cycle at
`0x10000` yields exactly 1 return address. -/
theorem claim_C4_witness :
    get_thread_trace memSelf (⟨1, 0, 0, 0x10000, 0, 0⟩ : ThreadDataV1) =
      some (ipsSeg (fun _ => 0xAA) 0 1 ++ List.replicate (BT_DEPTH - 1) 0) ∧
    btEntries (ipsSeg (fun _ => 0xAA) 0 1 ++ List.replicate (BT_DEPTH - 1) 0) = 1 :=
  claim_C4_period1_cycle_guard memSelf ⟨1, 0, 0, 0x10000, 0, 0⟩
    (fun _ => 0x10000) (fun _ => 0xAA) 1
    (by decide) (by decide) (by decide)
    (by decide) (by decide) (by decide) (by decide) (by decide)
    (by decide) (by decide) (by intro i hi; omega) (by decide)

/-! ### C6 — clean acyclic chains are unwound completely -/

/-- C6: for every acyclic frame-pointer chain of length `L ≤ 64` whose
frame pointers are all at/above the minimum-plausible threshold and whose
remote reads all succeed (with the contracted size 8) and whose return
addresses are nonzero, `walk` returns exactly the `L` return addresses in
innermost-frame-first order (`ipsSeg ip 0 L = [ip 0, …, ip (L-1)]`), all
nonzero, with every unused trailing slot equal to the `0` sentinel. -/
theorem claim_C6_full_unwind (getMem : Nat → Option (Nat × Nat)) (td : ThreadDataV1)
    (f ip : Nat → Nat) (L : Nat) (hL : L ≤ BT_DEPTH) (hrbp : td.rbp = f 0)
    (hbig : ∀ i, i < L → 65536 ≤ f i)
    (hofl : ∀ i, i < L → f i + 8 < U64)
    (hipr : ∀ i, i < L → getMem (f i + 8) = some (ip i, 8))
    (hipv : ∀ i, i < L → ip i < U64)
    (hipnz : ∀ i, i < L → ip i ≠ 0)
    (hnxt : ∀ i, i < L → getMem (f i) = some (f (i + 1), 8))
    (hnv : ∀ i, i < L → f (i + 1) < U64)
    (hdist : ∀ j, j < L → ∀ i, i < j → f i ≠ f j)
    (hterm : f L = 0) :
    get_thread_trace getMem td =
      some (ipsSeg ip 0 L ++ List.replicate (BT_DEPTH - L) 0) ∧
    btEntries (ipsSeg ip 0 L ++ List.replicate (BT_DEPTH - L) 0) = L ∧
    (∀ a ∈ ipsSeg ip 0 L, a ≠ 0) := by
  have hnz : ∀ a ∈ ipsSeg ip 0 L, a ≠ 0 := fun a ha => by
    obtain ⟨i, hi, rfl⟩ := mem_ipsSeg ip L 0 a ha
    exact hipnz (0 + i) (by omega)
  rcases Nat.eq_zero_or_pos L with rfl | hL0
  · have h0 : td.rbp = 0 := by rw [hrbp]; exact hterm
    refine ⟨?_, ?_, hnz⟩
    · unfold get_thread_trace get_thread_traceT
      rw [if_pos h0]
      simp [mkBacktrace, ipsSeg]
    · simpa using btEntries_append_zeros [] (BT_DEPTH - 0) (by simp)
  · have hne : ∀ i, i + 1 < L → f i ≠ f (i + 1) :=
      fun i hi => hdist (i + 1) hi i (Nat.lt_succ_self i)
    have h := get_thread_traceT_chain getMem td f ip L hL0 hL hrbp hbig hofl hipr hipv
      hnxt hnv hne (Or.inl hterm)
    refine ⟨?_, ?_, hnz⟩
    · unfold get_thread_trace
      rw [h, mkBacktrace_seg]
      rfl
    · rw [btEntries_append_zeros _ _ hnz]
      exact ipsSeg_length ip L 0

/-- Witness for C6 on the concrete 2-frame chain
`0x10000 → 0x20000 → 0` with return addresses `0xAA`, `0xAB`. -/
theorem claim_C6_witness :
    get_thread_trace memChain2 (⟨1, 0, 0, 0x10000, 0, 0⟩ : ThreadDataV1) =
      some (ipsSeg (fun i => 0xAA + i) 0 2 ++ List.replicate (BT_DEPTH - 2) 0) ∧
    btEntries (ipsSeg (fun i => 0xAA + i) 0 2 ++ List.replicate (BT_DEPTH - 2) 0) = 2 ∧
    (∀ a ∈ ipsSeg (fun i => 0xAA + i) 0 2, a ≠ 0) :=
  claim_C6_full_unwind memChain2 ⟨1, 0, 0, 0x10000, 0, 0⟩
    (fun i => if i = 0 then 0x10000 else if i = 1 then 0x20000 else 0)
    (fun i => 0xAA + i) 2
    (by decide) (by decide) (by decide) (by decide) (by decide) (by decide)
    (by decide) (by decide) (by decide) (by decide) (by decide)

/-! ### C7 — read failures truncate the backtrace -/

/-- Common reduction for the two read-failure stop cases: after `j` clean
frames the walker sits at frame pointer `f j` with `prev ≠ f j`. -/
lemma get_thread_traceT_fail_setup (getMem : Nat → Option (Nat × Nat)) (td : ThreadDataV1)
    (f ip : Nat → Nat) (j : Nat) (hj : j < BT_DEPTH) (hrbp : td.rbp = f 0)
    (hbig : ∀ i, i < j → 65536 ≤ f i)
    (hofl : ∀ i, i < j → f i + 8 < U64)
    (hipr : ∀ i, i < j → getMem (f i + 8) = some (ip i, 8))
    (hipv : ∀ i, i < j → ip i < U64)
    (hnxt : ∀ i, i < j → getMem (f i) = some (f (i + 1), 8))
    (hnv : ∀ i, i < j → f (i + 1) < U64)
    (hne : ∀ i, i + 1 ≤ j → f i ≠ f (i + 1))
    (hbj : 65536 ≤ f j) :
    prevAfter 0 f 0 j ≠ f j ∧
    get_thread_traceT getMem td =
      (walkLoop getMem (BT_DEPTH - j) (prevAfter 0 f 0 j) (f j)
        (ipsSeg ip 0 j) (trSeg f ip 0 j)).map (fun r => (mkBacktrace r.1, r.2)) := by
  have hb0 : 65536 ≤ f 0 := by
    cases j with
    | zero => exact hbj
    | succ l => exact hbig 0 (Nat.succ_pos l)
  constructor
  · cases j with
    | zero => show (0 : Nat) ≠ f 0; omega
    | succ l =>
      have := hne l (by omega)
      simpa [prevAfter] using this
  · exact get_thread_traceT_advance getMem td f ip j (by omega) hrbp hbig hofl hipr hipv
      hnxt hnv (fun i hi => hne i (by omega)) hb0

/-- C7 as amended: if the first failing remote read is the return-address
read of frame `j` (the (2j+1)-th read issued), `walk` returns exactly the
`j` return addresses already appended and the current slot stays at the
`0` sentinel; if it is the next-frame-pointer read of frame `j` (the
(2j+2)-th read), `walk` returns exactly `j + 1` return addresses — frame
`j`'s already-appended address is kept.  In both cases no error is raised
and no entry beyond the accumulated prefix is nonzero. -/
theorem claim_C7_truncate_on_read_failure :
    (∀ (getMem : Nat → Option (Nat × Nat)) (td : ThreadDataV1) (f ip : Nat → Nat) (j : Nat),
      j < BT_DEPTH → td.rbp = f 0 →
      (∀ i, i < j → 65536 ≤ f i) →
      (∀ i, i < j → f i + 8 < U64) →
      (∀ i, i < j → getMem (f i + 8) = some (ip i, 8)) →
      (∀ i, i < j → ip i < U64) →
      (∀ i, i < j → getMem (f i) = some (f (i + 1), 8)) →
      (∀ i, i < j → f (i + 1) < U64) →
      (∀ i, i + 1 ≤ j → f i ≠ f (i + 1)) →
      65536 ≤ f j → f j + 8 < U64 →
      getMem (f j + 8) = none →
      get_thread_traceT getMem td =
        some (ipsSeg ip 0 j ++ List.replicate (BT_DEPTH - j) 0,
          trSeg f ip 0 j ++ [(f j + 8, none)])) ∧
    (∀ (getMem : Nat → Option (Nat × Nat)) (td : ThreadDataV1) (f ip : Nat → Nat) (j : Nat),
      j < BT_DEPTH → td.rbp = f 0 →
      (∀ i, i < j → 65536 ≤ f i) →
      (∀ i, i < j → f i + 8 < U64) →
      (∀ i, i < j → getMem (f i + 8) = some (ip i, 8)) →
      (∀ i, i < j → ip i < U64) →
      (∀ i, i < j → getMem (f i) = some (f (i + 1), 8)) →
      (∀ i, i < j → f (i + 1) < U64) →
      (∀ i, i + 1 ≤ j → f i ≠ f (i + 1)) →
      65536 ≤ f j → f j + 8 < U64 →
      getMem (f j + 8) = some (ip j, 8) → ip j < U64 →
      getMem (f j) = none →
      get_thread_traceT getMem td =
        some (ipsSeg ip 0 (j + 1) ++ List.replicate (BT_DEPTH - (j + 1)) 0,
          trSeg f ip 0 j ++ [(f j + 8, some (ip j, 8)), (f j, none)])) := by
  constructor
  · intro getMem td f ip j hj hrbp hbig hofl hipr hipv hnxt hnv hne hbj hoflj hfail
    obtain ⟨hprev, hred⟩ := get_thread_traceT_fail_setup getMem td f ip j hj hrbp
      hbig hofl hipr hipv hnxt hnv hne hbj
    obtain ⟨m, hm⟩ : ∃ m, BT_DEPTH - j = m + 1 := ⟨BT_DEPTH - j - 1, by omega⟩
    rw [hred, hm, walkLoop_fail_ret getMem m _ _ _ _ hprev hbj hoflj hfail]
    simp [mkBacktrace_seg, hm]
  · intro getMem td f ip j hj hrbp hbig hofl hipr hipv hnxt hnv hne hbj hoflj hr hipvj hfail
    obtain ⟨hprev, hred⟩ := get_thread_traceT_fail_setup getMem td f ip j hj hrbp
      hbig hofl hipr hipv hnxt hnv hne hbj
    obtain ⟨m, hm⟩ : ∃ m, BT_DEPTH - j = m + 1 := ⟨BT_DEPTH - j - 1, by omega⟩
    rw [hred, hm, walkLoop_fail_next getMem m _ _ _ _ _ hprev hbj hoflj hr hipvj hfail]
    have hsnoc : ipsSeg ip 0 j ++ [ip j] = ipsSeg ip 0 (j + 1) := by
      rw [ipsSeg_snoc ip j 0]
      simp
    simp [hsnoc, mkBacktrace_seg]

/-- Witness for the amended C7: the very first read fails (`j = 0`), so
the walk returns zero addresses and a 1-entry read trace. -/
theorem claim_C7_witness :
    get_thread_traceT (fun _ => none) (⟨1, 0, 0, 0x10000, 0, 0⟩ : ThreadDataV1) =
      some (ipsSeg (fun _ => 0) 0 0 ++ List.replicate (BT_DEPTH - 0) 0,
        trSeg (fun _ => 0x10000) (fun _ => 0) 0 0 ++ [((fun _ : Nat => 0x10000) 0 + 8, none)]) :=
  claim_C7_truncate_on_read_failure.1 (fun _ => none) ⟨1, 0, 0, 0x10000, 0, 0⟩
    (fun _ => 0x10000) (fun _ => 0) 0
    (by decide) (by decide)
    (by intro i hi; omega) (by intro i hi; omega) (by intro i hi; omega)
    (by intro i hi; omega) (by intro i hi; omega) (by intro i hi; omega)
    (by intro i hi; omega)
    (by decide) (by decide) rfl

set_option maxRecDepth 8192 in
/-- Counterexample to C7 as stated: on the chain `0x10000 → 0x20000` the
third remote read issued (`j = 3`, the return-address read of the second
frame, at `0x20008`) fails, yet `walk` returns 1 address — frame 0's
return address — not `j - 1 = 2`. -/
theorem claim_C7_counterexample :
    get_thread_traceT memFail3 (⟨1, 0, 0, 0x10000, 0, 0⟩ : ThreadDataV1) =
      some (0xAA :: List.replicate 63 0,
        [(0x10008, some (0xAA, 8)), (0x10000, some (0x20000, 8)), (0x20008, none)]) ∧
    ([(0x10008, some (0xAA, 8)), (0x10000, some (0x20000, 8)),
        ((0x20008 : Nat), (none : Option (Nat × Nat)))].length = 3) ∧
    btEntries (0xAA :: List.replicate 63 0) = 1 ∧ (1 : Nat) ≠ 3 - 1 := by decide

/-! ### The debug-session controller (`cmd_print_stacks`, lines 175-262)

The syscall transport (`moto_sys::SysRay`) is external to the repository;
a session's channel is modelled as a record of response functions.  The
debuggee's thread population may change between the snapshot phase and the
post-resume re-scan phase (threads can be spawned while the process is
frozen), so the two phases' `dbg_list_threads` behaviors are separate
fields.  Each channel operation's result models the corresponding
`Result<_, ErrorCode>`. -/

/-- The subset of `moto_sys::ErrorCode` distinguished by `mdbg`. -/
inductive ErrorCode where
  | notFound
  | alreadyInUse
  | notReady
  | badHandle
  | invalidArgument
deriving DecidableEq, Repr

/-- The debug channel: responses of the `SysRay` debug syscalls for one
session.  `listThreads1` serves the snapshot phase, `listThreads2` the
post-resume re-scan phase (the debuggee may have spawned threads in
between); `put` is the result of `SysObj::put` on the handle after
`dbg_detach`. -/
structure Channel where
  attach : Except ErrorCode Unit
  pause : Except ErrorCode Unit
  listThreads1 : Nat → Except ErrorCode (List Nat)
  getThreadData : Nat → Except ErrorCode ThreadDataV1
  getMem : Nat → Option (Nat × Nat)
  resumeProcess : Except ErrorCode Unit
  resumeThread : Nat → Except ErrorCode Unit
  listThreads2 : Nat → Except ErrorCode (List Nat)
  detach : Except ErrorCode Unit
  put : Except ErrorCode Unit

/-- Observable channel calls made by the session, in program order. -/
inductive Event where
  | pauseProcess
  | listThreads (start : Nat) (page : List Nat)
  | getThreadData (tid : Nat)
  | resumeProcess
  | resumeThread (tid : Nat)
  | detach
  | put
deriving DecidableEq, Repr

/-- Result of a session loop: normal completion, a panic
(`unwrap`/`assert!` failure), or exhaustion of the model's fuel. -/
inductive LoopRes (α : Type) where
  | ok (a : α)
  | panicked
  | fuelOut
deriving DecidableEq, Repr

/-- Final outcome of `cmd_print_stacks`: `completed` = returned `Ok(())`;
`panicked` = a `.unwrap()` or `assert!`/`assert_eq!` fired; `exited` =
`std::process::exit(1)` on attach failure; `outOfFuel` = model fuel ran
out (no counterpart in the source; excluded by hypotheses). -/
inductive Outcome where
  | completed
  | panicked
  | exited
  | outOfFuel
deriving DecidableEq, Repr

/-- Source `print_stack_trace` (lines 144-173): fetch the thread's data
(`unwrap` on failure), then walk its stack.  Printing is I/O-only and not
modelled.  `none` = the function panicked. -/
def print_stack_trace (ch : Channel) (tid : Nat) : List Event × Option Unit :=
  match ch.getThreadData tid with
  | .error _ => ([Event.getThreadData tid], none)
  | .ok td =>
    match get_thread_traceT ch.getMem td with
    | none => ([Event.getThreadData tid], none)
    | some _ => ([Event.getThreadData tid], some ())

/-- The per-page body of the snapshot loop (lines 207-210): for each tid
of the page, `push_back` it and print its stack trace. -/
def visitPage (ch : Channel) : List Nat → List Event × Option Unit
  | [] => ([], some ())
  | tid :: rest =>
    match print_stack_trace ch tid with
    | (evs, none) => (evs, none)
    | (evs, some ()) =>
      match visitPage ch rest with
      | (evs2, r) => (evs ++ evs2, r)

/-- The snapshot enumeration loop (lines 199-212): list a page of tids
starting from `start_tid + 1` (`unwrap` on failure), stop on an empty
page, otherwise record and snapshot every tid of the page and advance
`start_tid` to (last tid of the page) + 1.  Returns the accumulated
`all_tids` queue and the final `start_tid`. -/
def snapshotLoop (ch : Channel) : Nat → Nat → List Nat → List Event × LoopRes (List Nat × Nat)
  | 0, _, _ => ([], .fuelOut)
  | fuel + 1, start_tid, allTids =>
    match ch.listThreads1 (start_tid + 1) with
    | .error _ => ([Event.listThreads (start_tid + 1) []], .panicked)
    | .ok page =>
      if h : page = [] then ([Event.listThreads (start_tid + 1) page], .ok (allTids, start_tid))
      else
        match visitPage ch page with
        | (evs, none) => (Event.listThreads (start_tid + 1) page :: evs, .panicked)
        | (evs, some ()) =>
          match snapshotLoop ch fuel (page.getLast h + 1) (allTids ++ page) with
          | (evs2, r) => (Event.listThreads (start_tid + 1) page :: (evs ++ evs2), r)

/-- The first resume pass (lines 219-227): pop each queued tid and resume
it; a failure is tolerated iff it is `AlreadyInUse`, `NotFound` or
`NotReady`, otherwise the `assert!` fires. -/
def resumeDrain (ch : Channel) : List Nat → List Event × Option Unit
  | [] => ([], some ())
  | tid :: rest =>
    match ch.resumeThread tid with
    | .ok () =>
      match resumeDrain ch rest with
      | (evs, r) => (Event.resumeThread tid :: evs, r)
    | .error err =>
      if err = .alreadyInUse ∨ err = .notFound ∨ err = .notReady then
        match resumeDrain ch rest with
        | (evs, r) => (Event.resumeThread tid :: evs, r)
      else ([Event.resumeThread tid], none)

/-- The post-resume re-scan loop (lines 232-248): list further pages from
`start_tid + 1` and resume every newly discovered tid (same tolerated
error set), until an empty page. -/
def rescanLoop (ch : Channel) : Nat → Nat → List Event × LoopRes Unit
  | 0, _ => ([], .fuelOut)
  | fuel + 1, start_tid =>
    match ch.listThreads2 (start_tid + 1) with
    | .error _ => ([Event.listThreads (start_tid + 1) []], .panicked)
    | .ok page =>
      if h : page = [] then ([Event.listThreads (start_tid + 1) page], .ok ())
      else
        match resumeDrain ch page with
        | (evs, none) => (Event.listThreads (start_tid + 1) page :: evs, .panicked)
        | (evs, some ()) =>
          match rescanLoop ch fuel (page.getLast h + 1) with
          | (evs2, r) => (Event.listThreads (start_tid + 1) page :: (evs ++ evs2), r)

/-- Source `cmd_print_stacks` (lines 175-262): attach (exit(1) on
failure), pause (`unwrap`), snapshot all threads, resume the process
(`unwrap`), resume the queued threads, re-scan for late-spawned threads,
detach (`unwrap`), and finally assert that using the handle after detach
fails with `BadHandle`. -/
def cmd_print_stacks (ch : Channel) (fuel : Nat) : List Event × Outcome :=
  match ch.attach with
  | .error _ => ([], .exited)
  | .ok () =>
    match ch.pause with
    | .error _ => ([Event.pauseProcess], .panicked)
    | .ok () =>
      match snapshotLoop ch fuel 0 [] with
      | (e1, .fuelOut) => (Event.pauseProcess :: e1, .outOfFuel)
      | (e1, .panicked) => (Event.pauseProcess :: e1, .panicked)
      | (e1, .ok (allTids, start_tid)) =>
        match ch.resumeProcess with
        | .error _ => (Event.pauseProcess :: e1 ++ [Event.resumeProcess], .panicked)
        | .ok () =>
          match resumeDrain ch allTids with
          | (e2, none) =>
            (Event.pauseProcess :: e1 ++ Event.resumeProcess :: e2, .panicked)
          | (e2, some ()) =>
            match rescanLoop ch fuel start_tid with
            | (e3, .fuelOut) =>
              (Event.pauseProcess :: e1 ++ Event.resumeProcess :: (e2 ++ e3), .outOfFuel)
            | (e3, .panicked) =>
              (Event.pauseProcess :: e1 ++ Event.resumeProcess :: (e2 ++ e3), .panicked)
            | (e3, .ok ()) =>
              match ch.detach with
              | .error _ =>
                (Event.pauseProcess :: e1 ++ Event.resumeProcess ::
                  (e2 ++ e3 ++ [Event.detach]), .panicked)
              | .ok () =>
                match ch.put with
                | .error e =>
                  if e = .badHandle then
                    (Event.pauseProcess :: e1 ++ Event.resumeProcess ::
                      (e2 ++ e3 ++ [Event.detach, Event.put]), .completed)
                  else
                    (Event.pauseProcess :: e1 ++ Event.resumeProcess ::
                      (e2 ++ e3 ++ [Event.detach, Event.put]), .panicked)
                | .ok () =>
                  (Event.pauseProcess :: e1 ++ Event.resumeProcess ::
                    (e2 ++ e3 ++ [Event.detach, Event.put]), .panicked)

/-- The thread ids observed in listed pages, in order of observation. -/
def observedTids : List Event → List Nat
  | [] => []
  | Event.listThreads _ page :: rest => page ++ observedTids rest
  | _ :: rest => observedTids rest

/-- The tids passed to `dbg_resume_thread`, in call order. -/
def resumeCalls : List Event → List Nat
  | [] => []
  | Event.resumeThread t :: rest => t :: resumeCalls rest
  | _ :: rest => resumeCalls rest

/-- Modelled from the spec: `dbg_list_threads` of the (out-of-repository)
`moto_sys` transport — "ascending-id page starting at start_id; 0 = end"
(spec §6), with the source's fixed 64-entry buffer (`[0_u64; 64]`,
line 199): the page holds the first up-to-64 thread ids ≥ `start_id`
of the debuggee's id-sorted thread population. -/
def specListThreads (threads : List Nat) (start_id : Nat) : List Nat :=
  (threads.filter (fun t => start_id ≤ t)).take 64

/-- A channel whose transport behaves as the spec requires: attach,
pause, resume-process and detach succeed; thread listing follows
`specListThreads` over `threads` (snapshot phase) and `threads2`
(re-scan phase); successful memory reads return the contracted size 8;
use of the handle after detach answers `put`. -/
def specChannel (threads threads2 : List Nat) (tdata : Nat → Except ErrorCode ThreadDataV1)
    (mem : Nat → Option Nat) (resume : Nat → Except ErrorCode Unit)
    (put : Except ErrorCode Unit) : Channel where
  attach := .ok ()
  pause := .ok ()
  listThreads1 := fun s => .ok (specListThreads threads s)
  getThreadData := tdata
  getMem := fun a => (mem a).map (fun v => (v, 8))
  resumeProcess := .ok ()
  resumeThread := resume
  listThreads2 := fun s => .ok (specListThreads threads2 s)
  detach := .ok ()
  put := put

lemma observedTids_append : ∀ (a b : List Event),
    observedTids (a ++ b) = observedTids a ++ observedTids b := by
  intro a b
  induction a with
  | nil => simp [observedTids]
  | cons e rest ih => cases e <;> simp [observedTids, ih]

lemma resumeCalls_append : ∀ (a b : List Event),
    resumeCalls (a ++ b) = resumeCalls a ++ resumeCalls b := by
  intro a b
  induction a with
  | nil => simp [resumeCalls]
  | cons e rest ih => cases e <;> simp [resumeCalls, ih]

lemma print_stack_trace_fst (ch : Channel) (tid : Nat) :
    (print_stack_trace ch tid).1 = [Event.getThreadData tid] := by
  unfold print_stack_trace
  cases h : ch.getThreadData tid with
  | error e => rfl
  | ok td => cases h2 : get_thread_traceT ch.getMem td <;> simp [h2]

lemma visitPage_events (ch : Channel) : ∀ page,
    observedTids (visitPage ch page).1 = [] ∧ resumeCalls (visitPage ch page).1 = [] := by
  intro page
  induction page with
  | nil => exact ⟨rfl, rfl⟩
  | cons tid rest ih =>
    unfold visitPage
    cases hp : print_stack_trace ch tid with
    | mk evs r =>
      have hfst : evs = [Event.getThreadData tid] := by
        have h := print_stack_trace_fst ch tid
        rw [hp] at h
        exact h
      subst hfst
      cases r with
      | none => simp [observedTids, resumeCalls]
      | some u =>
        cases u
        cases hv : visitPage ch rest with
        | mk evs2 r2 =>
          rw [hv] at ih
          simp only [observedTids, resumeCalls, observedTids_append, resumeCalls_append]
          simpa [observedTids, resumeCalls] using ih

lemma chain'_le_getLast : ∀ (l : List Nat) (h : l ≠ []),
    l.Chain' (· < ·) → ∀ x ∈ l, x ≤ l.getLast h := by
  intro l
  induction l with
  | nil => intro h; exact absurd rfl h
  | cons a l ih =>
    intro h hch x hx
    cases l with
    | nil =>
      have : x = a := by simpa using hx
      subst this
      simp [List.getLast]
    | cons b l' =>
      have hab : a < b := (List.chain'_cons.mp hch).1
      have hch' : (b :: l').Chain' (· < ·) := (List.chain'_cons.mp hch).2
      have hne : (b :: l') ≠ [] := by simp
      have hgl : (a :: b :: l').getLast h = (b :: l').getLast hne := List.getLast_cons hne
      rcases List.mem_cons.mp hx with rfl | hx'
      · have hb := ih hne hch' b (List.mem_cons_self b l')
        rw [hgl]
        omega
      · rw [hgl]
        exact ih hne hch' x hx'

/-- Well-formedness of a listing behavior, as the spec requires of the
transport: every returned page is in strictly ascending id order and
contains only ids at/after the requested start id. -/
def ListWF (listThreads : Nat → Except ErrorCode (List Nat)) : Prop :=
  ∀ s page, listThreads s = .ok page → page.Chain' (· < ·) ∧ ∀ t ∈ page, s ≤ t

/-- Characterization of a successfully completed snapshot loop: the tids
are queued in observation order, no resume call happens, and the observed
ids are strictly ascending, all above the starting cursor and below the
final cursor. -/
lemma snapshotLoop_ok_inv (ch : Channel) (hwf : ListWF ch.listThreads1) :
    ∀ fuel s acc evs tids st, snapshotLoop ch fuel s acc = (evs, .ok (tids, st)) →
      ∃ ps, tids = acc ++ ps ∧ observedTids evs = ps ∧ resumeCalls evs = [] ∧
        ps.Chain' (· < ·) ∧ (∀ t ∈ ps, s + 1 ≤ t ∧ t < st + 1) ∧ s ≤ st := by
  intro fuel
  induction fuel with
  | zero => intro s acc evs tids st h; simp [snapshotLoop] at h
  | succ n ih =>
    intro s acc evs tids st h
    cases hl : ch.listThreads1 (s + 1) with
    | error e =>
      simp only [snapshotLoop, hl] at h
      simp at h
    | ok page =>
      obtain ⟨hchain, hge⟩ := hwf _ _ hl
      simp only [snapshotLoop, hl] at h
      by_cases hp : page = []
      · rw [dif_pos hp] at h
        simp only [Prod.mk.injEq, LoopRes.ok.injEq] at h
        obtain ⟨rfl, rfl, rfl⟩ := h
        exact ⟨[], by simp, by simp [observedTids, hp], by simp [resumeCalls, observedTids],
          List.chain'_nil, by simp, Nat.le_refl s⟩
      · rw [dif_neg hp] at h
        cases hv : visitPage ch page with
        | mk evs1 r1 =>
          cases r1 with
          | none => rw [hv] at h; simp at h
          | some u =>
            cases u
            cases hr : snapshotLoop ch n (page.getLast hp + 1) (acc ++ page) with
            | mk evs2 r2 =>
              cases r2 with
              | panicked => rw [hv, hr] at h; simp at h
              | fuelOut => rw [hv, hr] at h; simp at h
              | ok pr =>
                obtain ⟨tids', st'⟩ := pr
                rw [hv, hr] at h
                simp only [Prod.mk.injEq, LoopRes.ok.injEq] at h
                obtain ⟨rfl, rfl, rfl⟩ := h
                obtain ⟨ps', hacc, hobs2, hrc2, hch', hbd', hst'⟩ := ih _ _ _ _ _ hr
                have hvev := visitPage_events ch page
                rw [hv] at hvev
                have hlast : page.getLast hp ∈ page := List.getLast_mem hp
                have hgeL : s + 1 ≤ page.getLast hp := hge _ hlast
                refine ⟨page ++ ps', by rw [hacc]; simp, ?_, ?_, ?_, ?_, by omega⟩
                · simp [observedTids, observedTids_append, hvev.1, hobs2]
                · simp [resumeCalls, resumeCalls_append, hvev.2, hrc2]
                · rw [List.chain'_append]
                  refine ⟨hchain, hch', ?_⟩
                  intro x hx y hy
                  rw [List.getLast?_eq_getLast_of_ne_nil hp] at hx
                  have hxe : page.getLast hp = x := by simpa using hx
                  have hym : y ∈ ps' := List.mem_of_mem_head? hy
                  have := (hbd' y hym).1
                  omega
                · intro t ht
                  rcases List.mem_append.mp ht with htp | htp'
                  · have hle : t ≤ page.getLast hp := chain'_le_getLast page hp hchain t htp
                    exact ⟨hge _ htp, by omega⟩
                  · have := hbd' t htp'
                    omega

/-- Characterization of a completed first resume pass: exactly the queued
tids are passed to `resume_thread`, in order, and nothing is listed. -/
lemma resumeDrain_inv (ch : Channel) : ∀ tids evs, resumeDrain ch tids = (evs, some ()) →
    resumeCalls evs = tids ∧ observedTids evs = [] := by
  intro tids
  induction tids with
  | nil =>
    intro evs h
    simp only [resumeDrain, Prod.mk.injEq] at h
    obtain ⟨rfl, -⟩ := h
    exact ⟨rfl, rfl⟩
  | cons tid rest ih =>
    intro evs h
    cases hres : ch.resumeThread tid with
    | ok u =>
      cases u
      simp only [resumeDrain, hres] at h
      cases hd : resumeDrain ch rest with
      | mk evs' r =>
        rw [hd] at h
        simp only [Prod.mk.injEq] at h
        obtain ⟨rfl, rfl⟩ := h
        obtain ⟨h1, h2⟩ := ih _ hd
        exact ⟨by simp [resumeCalls, h1], by simp [observedTids, h2]⟩
    | error err =>
      simp only [resumeDrain, hres] at h
      by_cases hb : err = .alreadyInUse ∨ err = .notFound ∨ err = .notReady
      · rw [if_pos hb] at h
        cases hd : resumeDrain ch rest with
        | mk evs' r =>
          rw [hd] at h
          simp only [Prod.mk.injEq] at h
          obtain ⟨rfl, rfl⟩ := h
          obtain ⟨h1, h2⟩ := ih _ hd
          exact ⟨by simp [resumeCalls, h1], by simp [observedTids, h2]⟩
      · rw [if_neg hb] at h
        simp at h

/-- Characterization of a completed re-scan pass: the newly listed ids are
exactly the ids resumed, in order, strictly ascending, all above the
re-scan's starting cursor. -/
lemma rescanLoop_ok_inv (ch : Channel) (hwf : ListWF ch.listThreads2) :
    ∀ fuel s evs, rescanLoop ch fuel s = (evs, .ok ()) →
      ∃ qs, observedTids evs = qs ∧ resumeCalls evs = qs ∧
        qs.Chain' (· < ·) ∧ (∀ t ∈ qs, s + 1 ≤ t) := by
  intro fuel
  induction fuel with
  | zero => intro s evs h; simp [rescanLoop] at h
  | succ n ih =>
    intro s evs h
    cases hl : ch.listThreads2 (s + 1) with
    | error e =>
      simp only [rescanLoop, hl] at h
      simp at h
    | ok page =>
      obtain ⟨hchain, hge⟩ := hwf _ _ hl
      simp only [rescanLoop, hl] at h
      by_cases hp : page = []
      · rw [dif_pos hp] at h
        simp only [Prod.mk.injEq] at h
        obtain ⟨rfl, -⟩ := h
        exact ⟨[], by simp [observedTids, hp], by simp [resumeCalls, observedTids],
          List.chain'_nil, by simp⟩
      · rw [dif_neg hp] at h
        cases hv : resumeDrain ch page with
        | mk evs1 r1 =>
          cases r1 with
          | none => rw [hv] at h; simp at h
          | some u =>
            cases u
            cases hr : rescanLoop ch n (page.getLast hp + 1) with
            | mk evs2 r2 =>
              cases r2 with
              | panicked => rw [hv, hr] at h; simp at h
              | fuelOut => rw [hv, hr] at h; simp at h
              | ok u2 =>
                cases u2
                rw [hv, hr] at h
                simp only [Prod.mk.injEq] at h
                obtain ⟨rfl, -⟩ := h
                obtain ⟨hrc1, hob1⟩ := resumeDrain_inv ch page evs1 hv
                obtain ⟨qs', hobs2, hrc2, hch', hbd'⟩ := ih _ _ hr
                have hlast : page.getLast hp ∈ page := List.getLast_mem hp
                have hgeL : s + 1 ≤ page.getLast hp := hge _ hlast
                refine ⟨page ++ qs', ?_, ?_, ?_, ?_⟩
                · simp [observedTids, observedTids_append, hob1, hobs2]
                · simp [resumeCalls, resumeCalls_append, hrc1, hrc2]
                · rw [List.chain'_append]
                  refine ⟨hchain, hch', ?_⟩
                  intro x hx y hy
                  rw [List.getLast?_eq_getLast_of_ne_nil hp] at hx
                  have hxe : page.getLast hp = x := by simpa using hx
                  have hym : y ∈ qs' := List.mem_of_mem_head? hy
                  have := hbd' y hym
                  omega
                · intro t ht
                  rcases List.mem_append.mp ht with htp | htp'
                  · exact hge _ htp
                  · have := hbd' t htp'
                    omega

/-- Inversion of a completed session: completion forces every phase to
have succeeded in order, the event list to end with `detach` then the
post-detach handle check, and the post-detach use of the handle to have
been rejected with `BadHandle`. -/
lemma cmd_completed_inv (ch : Channel) (fuel : Nat)
    (h : (cmd_print_stacks ch fuel).2 = .completed) :
    ∃ e1 tids st e2 e3,
      snapshotLoop ch fuel 0 [] = (e1, .ok (tids, st)) ∧
      resumeDrain ch tids = (e2, some ()) ∧
      rescanLoop ch fuel st = (e3, .ok ()) ∧
      (cmd_print_stacks ch fuel).1 =
        Event.pauseProcess :: e1 ++ Event.resumeProcess ::
          (e2 ++ e3 ++ [Event.detach, Event.put]) ∧
      ch.put = .error .badHandle := by
  cases ha : ch.attach with
  | error e => simp only [cmd_print_stacks, ha] at h; simp at h
  | ok u =>
    cases u
    cases hpa : ch.pause with
    | error e => simp only [cmd_print_stacks, ha, hpa] at h; simp at h
    | ok u =>
      cases u
      cases hs : snapshotLoop ch fuel 0 [] with
      | mk e1 r1 =>
        cases r1 with
        | fuelOut => simp only [cmd_print_stacks, ha, hpa, hs] at h; simp at h
        | panicked => simp only [cmd_print_stacks, ha, hpa, hs] at h; simp at h
        | ok pr =>
          obtain ⟨tids, st⟩ := pr
          cases hrp : ch.resumeProcess with
          | error e => simp only [cmd_print_stacks, ha, hpa, hs, hrp] at h; simp at h
          | ok u =>
            cases u
            cases hd : resumeDrain ch tids with
            | mk e2 r2 =>
              cases r2 with
              | none => simp only [cmd_print_stacks, ha, hpa, hs, hrp, hd] at h; simp at h
              | some u =>
                cases u
                cases hre : rescanLoop ch fuel st with
                | mk e3 r3 =>
                  cases r3 with
                  | fuelOut =>
                    simp only [cmd_print_stacks, ha, hpa, hs, hrp, hd, hre] at h; simp at h
                  | panicked =>
                    simp only [cmd_print_stacks, ha, hpa, hs, hrp, hd, hre] at h; simp at h
                  | ok u =>
                    cases u
                    cases hdet : ch.detach with
                    | error e =>
                      simp only [cmd_print_stacks, ha, hpa, hs, hrp, hd, hre, hdet] at h
                      simp at h
                    | ok u =>
                      cases u
                      cases hput : ch.put with
                      | ok u =>
                        cases u
                        simp only [cmd_print_stacks, ha, hpa, hs, hrp, hd, hre, hdet, hput] at h
                        simp at h
                      | error pe =>
                        by_cases hpe : pe = .badHandle
                        · subst hpe
                          refine ⟨e1, tids, st, e2, e3, rfl, hd, hre, ?_, rfl⟩
                          simp only [cmd_print_stacks, ha, hpa, hs, hrp, hd, hre, hdet, hput]
                          simp
                        · simp only [cmd_print_stacks, ha, hpa, hs, hrp, hd, hre, hdet, hput,
                            if_neg hpe] at h
                          simp at h

/-! ### C2 — every observed thread id is resumed exactly once before detach -/

/-- C2: in every completed session over a well-formed listing transport,
the tids passed to `resume_thread` are exactly the tids observed in listed
pages while the process was paused (including ids first discovered by the
post-resume re-scan); each observed id occurs exactly once among the
observed ids and hence is resumed exactly once; and every `resume_thread`
call precedes the final `detach`/handle-check events. -/
theorem claim_C2_resume_each_observed_once (ch : Channel) (fuel : Nat)
    (hwf1 : ListWF ch.listThreads1) (hwf2 : ListWF ch.listThreads2)
    (hdone : (cmd_print_stacks ch fuel).2 = .completed) :
    resumeCalls (cmd_print_stacks ch fuel).1 = observedTids (cmd_print_stacks ch fuel).1 ∧
    (∀ t ∈ observedTids (cmd_print_stacks ch fuel).1,
      ((cmd_print_stacks ch fuel).1 |> resumeCalls).count t = 1) ∧
    ∃ pre, (cmd_print_stacks ch fuel).1 = pre ++ [Event.detach, Event.put] ∧
      resumeCalls pre = resumeCalls (cmd_print_stacks ch fuel).1 := by
  obtain ⟨e1, tids, st, e2, e3, hs, hd, hre, hevs, hput⟩ := cmd_completed_inv ch fuel hdone
  obtain ⟨ps, htids, hobs1, hrc1, hch1, hbd1, hst⟩ :=
    snapshotLoop_ok_inv ch hwf1 fuel 0 [] e1 tids st hs
  obtain ⟨hrc2, hobs2⟩ := resumeDrain_inv ch tids e2 hd
  obtain ⟨qs, hobs3, hrc3, hch3, hbd3⟩ := rescanLoop_ok_inv ch hwf2 fuel st e3 hre
  have htids' : tids = ps := by simpa using htids
  subst htids'
  have hobs : observedTids (cmd_print_stacks ch fuel).1 = tids ++ qs := by
    rw [hevs]
    simp [observedTids, observedTids_append, hobs1, hobs2, hobs3]
  have hrc : resumeCalls (cmd_print_stacks ch fuel).1 = tids ++ qs := by
    rw [hevs]
    simp [resumeCalls, resumeCalls_append, hrc1, hrc2, hrc3]
  have hchain : (tids ++ qs).Chain' (· < ·) := by
    rw [List.chain'_append]
    refine ⟨hch1, hch3, ?_⟩
    intro x hx y hy
    have hxm : x ∈ tids := List.mem_of_mem_getLast? hx
    have hym : y ∈ qs := List.mem_of_mem_head? hy
    have h1 := (hbd1 x hxm).2
    have h2 := hbd3 y hym
    omega
  have hnd : (tids ++ qs).Nodup :=
    (List.chain'_iff_pairwise.mp hchain).imp Nat.ne_of_lt
  refine ⟨by rw [hobs, hrc], ?_, ?_⟩
  · intro t ht
    rw [hobs] at ht
    rw [hrc]
    exact List.count_eq_one_of_mem hnd ht
  · refine ⟨Event.pauseProcess :: e1 ++ Event.resumeProcess :: (e2 ++ e3), ?_, ?_⟩
    · rw [hevs]
      simp
    · rw [hevs]
      have : (Event.pauseProcess :: e1 ++ Event.resumeProcess ::
          (e2 ++ e3 ++ [Event.detach, Event.put])) =
          (Event.pauseProcess :: e1 ++ Event.resumeProcess :: (e2 ++ e3)) ++
            [Event.detach, Event.put] := by simp
      rw [this, resumeCalls_append]
      simp [resumeCalls, resumeCalls_append]

/-- A spec-modelled listing over a strictly ascending thread population is
well-formed: pages are strictly ascending and contain only ids at/after
the requested start. -/
lemma specListThreads_wf (threads : List Nat) (hsorted : threads.Chain' (· < ·)) :
    ListWF (fun s => .ok (specListThreads threads s)) := by
  intro s page h
  have hpage : page = specListThreads threads s := by
    injection h with h
    exact h.symm
  subst hpage
  constructor
  · rw [List.chain'_iff_pairwise]
    have hp : threads.Pairwise (· < ·) := List.chain'_iff_pairwise.mp hsorted
    have hsub : List.Sublist (specListThreads threads s) threads :=
      List.Sublist.trans (List.take_sublist _ _) (List.filter_sublist _)
    exact hp.sublist hsub
  · intro t ht
    have ht' : t ∈ threads.filter (fun t => s ≤ t) := List.mem_of_mem_take ht
    have := List.mem_filter.mp ht'
    simpa using this.2

/-- The snapshot-phase listing of a spec channel is well-formed. -/
lemma specChannel_wf1 (threads threads2 : List Nat)
    (tdata : Nat → Except ErrorCode ThreadDataV1) (mem : Nat → Option Nat)
    (resume : Nat → Except ErrorCode Unit) (put : Except ErrorCode Unit)
    (hsorted : threads.Chain' (· < ·)) :
    ListWF (specChannel threads threads2 tdata mem resume put).listThreads1 :=
  specListThreads_wf threads hsorted

/-- The re-scan-phase listing of a spec channel is well-formed. -/
lemma specChannel_wf2 (threads threads2 : List Nat)
    (tdata : Nat → Except ErrorCode ThreadDataV1) (mem : Nat → Option Nat)
    (resume : Nat → Except ErrorCode Unit) (put : Except ErrorCode Unit)
    (hsorted : threads2.Chain' (· < ·)) :
    ListWF (specChannel threads threads2 tdata mem resume put).listThreads2 :=
  specListThreads_wf threads2 hsorted

/-- The thread snapshot of an idle thread (frame pointer 0: the walker
returns at once). -/
def tdIdle : ThreadDataV1 := ⟨1, 0, 0, 0, 0, 0⟩

/-- Failing input for C1: the debuggee has one thread (id 1) and its
`dbg_get_thread_data_v1` call fails (e.g. the debuggee died between the
listing and the snapshot); everything else behaves. -/
def chSnapFail : Channel :=
  specChannel [1] [1] (fun _ => .error .notFound) (fun _ => none)
    (fun _ => .ok ()) (.error .badHandle)

/-- Debuggee with 130 threads of ids 0..129 whose snapshots all succeed
(idle threads), the population static for the whole session. -/
def chThreads130 : Channel :=
  specChannel (List.range 130) (List.range 130) (fun _ => .ok tdIdle) (fun _ => none)
    (fun _ => .ok ()) (.error .badHandle)

/-! ### C1 — a snapshot-stage failure panics before any resume -/

set_option maxRecDepth 8192 in
/-- C1 (code-bug evidence): with pause succeeded and one thread listed,
a failing `dbg_get_thread_data_v1` makes the session panic (the source's
`.unwrap()` at line 145) before `dbg_resume_process`, any
`dbg_resume_thread`, or `dbg_detach` is ever called — the debuggee is left
paused, contradicting the spec's requirement that `resume_all` still be
attempted after a snapshot-stage failure. -/
theorem claim_C1_snapshot_panic_skips_resume :
    (cmd_print_stacks chSnapFail 3).2 = Outcome.panicked ∧
    Event.resumeProcess ∉ (cmd_print_stacks chSnapFail 3).1 ∧
    resumeCalls (cmd_print_stacks chSnapFail 3).1 = [] ∧
    Event.detach ∉ (cmd_print_stacks chSnapFail 3).1 := by decide

/-- Witness channel for C2: threads 1 and 2 exist at snapshot time; a
thread with id 5 appears (auto-paused) before the re-scan. -/
def chRescan : Channel :=
  specChannel [1, 2] [2, 5] (fun _ => .ok tdIdle) (fun _ => none)
    (fun _ => .ok ()) (.error .badHandle)

set_option maxRecDepth 8192 in
/-- Witness for C2 on a concrete completed session in which the re-scan
discovers thread 5, spawned during the freeze window. -/
theorem claim_C2_witness :
    (cmd_print_stacks chRescan 5).2 = Outcome.completed ∧
    (resumeCalls (cmd_print_stacks chRescan 5).1 =
        observedTids (cmd_print_stacks chRescan 5).1 ∧
      (∀ t ∈ observedTids (cmd_print_stacks chRescan 5).1,
        ((cmd_print_stacks chRescan 5).1 |> resumeCalls).count t = 1) ∧
      ∃ pre, (cmd_print_stacks chRescan 5).1 = pre ++ [Event.detach, Event.put] ∧
        resumeCalls pre = resumeCalls (cmd_print_stacks chRescan 5).1) :=
  ⟨by decide,
    claim_C2_resume_each_observed_once chRescan 5
      (specChannel_wf1 [1, 2] [2, 5] (fun _ => .ok tdIdle) (fun _ => none)
        (fun _ => .ok ()) (.error .badHandle) (by simp))
      (specChannel_wf2 [1, 2] [2, 5] (fun _ => .ok tdIdle) (fun _ => none)
        (fun _ => .ok ()) (.error .badHandle) (by simp))
      (by decide)⟩

/-! ### C3 — the pagination cursor skips ids -/

set_option maxRecDepth 8192 in
/-- Counterexample to C3 as stated: with 130 threads of ids 0..129 and the
spec-modelled listing transport, the session completes but thread ids 0
and 65 are never observed and never resumed: the first page request is for
ids ≥ 1 (`start_tid + 1` with `start_tid = 0`), and after a full page
ending at id 64 the next request is for ids ≥ 66 (`start_tid` is set to
65 = last + 1 and the call adds 1 again). -/
theorem claim_C3_counterexample :
    (cmd_print_stacks chThreads130 10).2 = Outcome.completed ∧
    (0 ∈ List.range 130 ∧ 65 ∈ List.range 130) ∧
    0 ∉ observedTids (cmd_print_stacks chThreads130 10).1 ∧
    65 ∉ observedTids (cmd_print_stacks chThreads130 10).1 ∧
    0 ∉ resumeCalls (cmd_print_stacks chThreads130 10).1 ∧
    65 ∉ resumeCalls (cmd_print_stacks chThreads130 10).1 := by decide

set_option maxRecDepth 8192 in
/-- C3 as amended: with 130 threads of ids 0..129 and the spec-modelled
transport, the snapshot pass visits exactly the ids 1..64 and 66..129 —
every id except 0 and 65 (the id following the first full page) — each
exactly once, and each visited id is resumed exactly once. -/
theorem claim_C3_pagination_visits :
    observedTids (cmd_print_stacks chThreads130 10).1 =
      List.range' 1 64 ++ List.range' 66 64 ∧
    (observedTids (cmd_print_stacks chThreads130 10).1).Nodup ∧
    resumeCalls (cmd_print_stacks chThreads130 10).1 =
      observedTids (cmd_print_stacks chThreads130 10).1 ∧
    (∀ t ∈ observedTids (cmd_print_stacks chThreads130 10).1,
      (resumeCalls (cmd_print_stacks chThreads130 10).1).count t = 1) ∧
    (cmd_print_stacks chThreads130 10).2 = Outcome.completed := by decide

lemma length_filter_mono {α : Type} (l : List α) (p q : α → Bool)
    (himp : ∀ x, q x = true → p x = true) :
    (l.filter q).length ≤ (l.filter p).length := by
  induction l with
  | nil => simp
  | cons b l ih =>
    by_cases hq : q b = true
    · have hp := himp b hq
      simp only [List.filter_cons, hq, hp, if_true]
      simpa using ih
    · have hq' : q b = false := by simpa using hq
      cases hp : p b
      · simp only [List.filter_cons, hq', hp]
        simpa using ih
      · simp only [List.filter_cons, hq', hp]
        simp
        omega

lemma length_filter_lt {α : Type} (l : List α) (p q : α → Bool)
    (himp : ∀ x, q x = true → p x = true) (a : α) (ha : a ∈ l)
    (hpa : p a = true) (hqa : q a = false) :
    (l.filter q).length < (l.filter p).length := by
  induction l with
  | nil => cases ha
  | cons b l ih =>
    rcases List.mem_cons.mp ha with rfl | ha'
    · simp only [List.filter_cons, hpa, hqa, if_true]
      simp
      exact Nat.lt_succ_of_le (length_filter_mono l p q himp)
    · by_cases hq : q b = true
      · have hp := himp b hq
        simp only [List.filter_cons, hq, hp, if_true]
        simpa using ih ha'
      · have hq' : q b = false := by simpa using hq
        cases hp : p b
        · simp only [List.filter_cons, hq', hp]
          simpa using ih ha'
        · simp only [List.filter_cons, hq', hp]
          simp
          have := ih ha'
          omega

/-- With total thread-data and a size-honest memory channel, every page
visit of the snapshot loop succeeds. -/
lemma visitPage_ok (ch : Channel) (htd : ∀ tid, ∃ td, ch.getThreadData tid = .ok td)
    (h8 : ∀ a v s, ch.getMem a = some (v, s) → s = 8) :
    ∀ page, ∃ evs, visitPage ch page = (evs, some ()) := by
  intro page
  induction page with
  | nil => exact ⟨[], rfl⟩
  | cons tid rest ih =>
    obtain ⟨td, htd'⟩ := htd tid
    obtain ⟨bt, tr, hw⟩ := get_thread_traceT_isSome_of_size8 ch.getMem td h8
    obtain ⟨evs2, hrec⟩ := ih
    exact ⟨Event.getThreadData tid :: evs2,
      by simp [visitPage, print_stack_trace, htd', hw, hrec]⟩

/-- A resume pass over any queue completes when every per-thread resume
outcome is success or one of the three tolerated errors. -/
lemma resumeDrain_ok_of_benign (ch : Channel)
    (hres : ∀ t, ch.resumeThread t = .ok () ∨ ch.resumeThread t = .error .alreadyInUse ∨
      ch.resumeThread t = .error .notFound ∨ ch.resumeThread t = .error .notReady) :
    ∀ tids, ∃ evs, resumeDrain ch tids = (evs, some ()) := by
  intro tids
  induction tids with
  | nil => exact ⟨[], rfl⟩
  | cons tid rest ih =>
    obtain ⟨evs2, hrec⟩ := ih
    rcases hres tid with h | h | h | h
    · exact ⟨Event.resumeThread tid :: evs2, by simp [resumeDrain, h, hrec]⟩
    · exact ⟨Event.resumeThread tid :: evs2, by simp [resumeDrain, h, hrec]⟩
    · exact ⟨Event.resumeThread tid :: evs2, by simp [resumeDrain, h, hrec]⟩
    · exact ⟨Event.resumeThread tid :: evs2, by simp [resumeDrain, h, hrec]⟩

/-- The snapshot loop terminates successfully over a spec-modelled listing
with enough fuel: each non-empty page strictly shrinks the set of not-yet
listable thread ids. -/
lemma snapshotLoop_spec_ok (ch : Channel) (threads : List Nat)
    (hch : ∀ s, ch.listThreads1 s = .ok (specListThreads threads s))
    (htd : ∀ tid, ∃ td, ch.getThreadData tid = .ok td)
    (h8 : ∀ a v s, ch.getMem a = some (v, s) → s = 8) :
    ∀ fuel s acc, (threads.filter (fun t => s + 1 ≤ t)).length < fuel →
      ∃ evs tids st, snapshotLoop ch fuel s acc = (evs, .ok (tids, st)) := by
  intro fuel
  induction fuel with
  | zero => intro s acc h; omega
  | succ n ih =>
    intro s acc hlen
    by_cases hp : specListThreads threads (s + 1) = []
    · exact ⟨[Event.listThreads (s + 1) []], acc, s, by simp [snapshotLoop, hch, hp]⟩
    · obtain ⟨evs1, hvp⟩ := visitPage_ok ch htd h8 (specListThreads threads (s + 1))
      have hlast_mem : (specListThreads threads (s + 1)).getLast hp ∈
          specListThreads threads (s + 1) := List.getLast_mem hp
      have hmem_filter : (specListThreads threads (s + 1)).getLast hp ∈
          threads.filter (fun t => s + 1 ≤ t) := List.mem_of_mem_take hlast_mem
      have hmem_threads : (specListThreads threads (s + 1)).getLast hp ∈ threads :=
        (List.mem_filter.mp hmem_filter).1
      have hsle : s + 1 ≤ (specListThreads threads (s + 1)).getLast hp := by
        have := (List.mem_filter.mp hmem_filter).2
        simpa using this
      have hdec : (threads.filter
            (fun t => (specListThreads threads (s + 1)).getLast hp + 1 + 1 ≤ t)).length <
          (threads.filter (fun t => s + 1 ≤ t)).length := by
        apply length_filter_lt threads _ _ ?_ _ hmem_threads ?_ ?_
        · intro x hx
          simp only [decide_eq_true_eq] at hx ⊢
          omega
        · simpa using hsle
        · simp
          omega
      obtain ⟨evs2, tids, st, hrec⟩ :=
        ih ((specListThreads threads (s + 1)).getLast hp + 1)
          (acc ++ specListThreads threads (s + 1)) (by omega)
      exact ⟨Event.listThreads (s + 1) (specListThreads threads (s + 1)) :: (evs1 ++ evs2),
        tids, st, by simp [snapshotLoop, hch, hp, hvp, hrec]⟩

/-- The re-scan loop terminates successfully over a spec-modelled listing
with benign resume outcomes and enough fuel. -/
lemma rescanLoop_spec_ok (ch : Channel) (threads2 : List Nat)
    (hch : ∀ s, ch.listThreads2 s = .ok (specListThreads threads2 s))
    (hres : ∀ t, ch.resumeThread t = .ok () ∨ ch.resumeThread t = .error .alreadyInUse ∨
      ch.resumeThread t = .error .notFound ∨ ch.resumeThread t = .error .notReady) :
    ∀ fuel s, (threads2.filter (fun t => s + 1 ≤ t)).length < fuel →
      ∃ evs, rescanLoop ch fuel s = (evs, .ok ()) := by
  intro fuel
  induction fuel with
  | zero => intro s h; omega
  | succ n ih =>
    intro s hlen
    by_cases hp : specListThreads threads2 (s + 1) = []
    · exact ⟨[Event.listThreads (s + 1) []], by simp [rescanLoop, hch, hp]⟩
    · obtain ⟨evs1, hvp⟩ := resumeDrain_ok_of_benign ch hres (specListThreads threads2 (s + 1))
      have hlast_mem : (specListThreads threads2 (s + 1)).getLast hp ∈
          specListThreads threads2 (s + 1) := List.getLast_mem hp
      have hmem_filter : (specListThreads threads2 (s + 1)).getLast hp ∈
          threads2.filter (fun t => s + 1 ≤ t) := List.mem_of_mem_take hlast_mem
      have hmem_threads : (specListThreads threads2 (s + 1)).getLast hp ∈ threads2 :=
        (List.mem_filter.mp hmem_filter).1
      have hsle : s + 1 ≤ (specListThreads threads2 (s + 1)).getLast hp := by
        have := (List.mem_filter.mp hmem_filter).2
        simpa using this
      have hdec : (threads2.filter
            (fun t => (specListThreads threads2 (s + 1)).getLast hp + 1 + 1 ≤ t)).length <
          (threads2.filter (fun t => s + 1 ≤ t)).length := by
        apply length_filter_lt threads2 _ _ ?_ _ hmem_threads ?_ ?_
        · intro x hx
          simp only [decide_eq_true_eq] at hx ⊢
          omega
        · simpa using hsle
        · simp
          omega
      obtain ⟨evs2, hrec⟩ :=
        ih ((specListThreads threads2 (s + 1)).getLast hp + 1) (by omega)
      exact ⟨Event.listThreads (s + 1) (specListThreads threads2 (s + 1)) :: (evs1 ++ evs2),
        by simp [rescanLoop, hch, hp, hvp, hrec]⟩

/-! ### C8 — benign resume failures are swallowed; others are fatal -/

/-- Channel whose per-thread resume fails with an error outside the
tolerated set (`InvalidArgument`): the session's `assert!` fires. -/
def chResumeFatal : Channel :=
  specChannel [1] [] (fun _ => .ok tdIdle) (fun _ => none)
    (fun _ => .error .invalidArgument) (.error .badHandle)

/-- Channel whose per-thread resume fails with `BadHandle` — another error
outside the tolerated set. -/
def chResumeBad : Channel :=
  specChannel [1] [] (fun _ => .ok tdIdle) (fun _ => none)
    (fun _ => .error .badHandle) (.error .badHandle)

/-- If attach, pause, snapshotting, process resume, both resume passes and
detach itself all succeed, the event trace contains `detach` — whatever
the post-detach handle check yields. -/
lemma cmd_detach_mem (ch : Channel) (fuel : Nat)
    (hatt : ch.attach = .ok ()) (hpau : ch.pause = .ok ())
    (e1 : List Event) (tids : List Nat) (st : Nat)
    (hs : snapshotLoop ch fuel 0 [] = (e1, .ok (tids, st)))
    (hrp : ch.resumeProcess = .ok ())
    (e2 : List Event) (hd : resumeDrain ch tids = (e2, some ()))
    (e3 : List Event) (hre : rescanLoop ch fuel st = (e3, .ok ()))
    (hdet : ch.detach = .ok ()) :
    Event.detach ∈ (cmd_print_stacks ch fuel).1 := by
  cases hput : ch.put with
  | ok u =>
    cases u
    simp [cmd_print_stacks, hatt, hpau, hs, hrp, hd, hre, hdet, hput]
  | error pe =>
    by_cases hpe : pe = .badHandle
    · subst hpe
      simp [cmd_print_stacks, hatt, hpau, hs, hrp, hd, hre, hdet, hput]
    · simp [cmd_print_stacks, hatt, hpau, hs, hrp, hd, hre, hdet, hput, hpe]

/-- The events of a page visit are thread-data fetches only: no resume
call, no detach. -/
lemma visitPage_shape (ch : Channel) : ∀ page evs r, visitPage ch page = (evs, r) →
    (∀ t, Event.resumeThread t ∉ evs) ∧ Event.detach ∉ evs := by
  intro page
  induction page with
  | nil =>
    intro evs r h
    simp only [visitPage, Prod.mk.injEq] at h
    obtain ⟨rfl, -⟩ := h
    simp
  | cons tid rest ih =>
    intro evs r h
    cases hp : print_stack_trace ch tid with
    | mk evs1 r1 =>
      have hfst : evs1 = [Event.getThreadData tid] := by
        have hh := print_stack_trace_fst ch tid
        rw [hp] at hh
        exact hh
      subst hfst
      cases r1 with
      | none =>
        simp only [visitPage, hp, Prod.mk.injEq] at h
        obtain ⟨rfl, -⟩ := h
        simp
      | some u =>
        cases u
        cases hv : visitPage ch rest with
        | mk evs2 r2 =>
          simp only [visitPage, hp, hv, Prod.mk.injEq] at h
          obtain ⟨rfl, -⟩ := h
          obtain ⟨ih1, ih2⟩ := ih evs2 r2 hv
          constructor
          · intro t
            simp [ih1 t]
          · simp [ih2]

/-- The events of the snapshot loop, for every outcome, are thread
listings and thread-data fetches only: no resume call, no detach. -/
lemma snapshotLoop_shape (ch : Channel) : ∀ fuel s acc evs r,
    snapshotLoop ch fuel s acc = (evs, r) →
    (∀ t, Event.resumeThread t ∉ evs) ∧ Event.detach ∉ evs := by
  intro fuel
  induction fuel with
  | zero =>
    intro s acc evs r h
    simp only [snapshotLoop, Prod.mk.injEq] at h
    obtain ⟨rfl, -⟩ := h
    simp
  | succ n ih =>
    intro s acc evs r h
    cases hl : ch.listThreads1 (s + 1) with
    | error e =>
      simp only [snapshotLoop, hl, Prod.mk.injEq] at h
      obtain ⟨rfl, -⟩ := h
      simp
    | ok page =>
      simp only [snapshotLoop, hl] at h
      by_cases hp : page = []
      · rw [dif_pos hp] at h
        simp only [Prod.mk.injEq] at h
        obtain ⟨rfl, -⟩ := h
        simp
      · rw [dif_neg hp] at h
        cases hv : visitPage ch page with
        | mk evs1 r1 =>
          obtain ⟨hv1, hv2⟩ := visitPage_shape ch page evs1 r1 hv
          cases r1 with
          | none =>
            rw [hv] at h
            simp only [Prod.mk.injEq] at h
            obtain ⟨rfl, -⟩ := h
            constructor
            · intro t
              simp [hv1 t]
            · simp [hv2]
          | some u =>
            cases u
            cases hrec : snapshotLoop ch n (page.getLast hp + 1) (acc ++ page) with
            | mk evs2 r2 =>
              rw [hv, hrec] at h
              simp only [Prod.mk.injEq] at h
              obtain ⟨rfl, -⟩ := h
              obtain ⟨ih1, ih2⟩ := ih _ _ _ _ hrec
              constructor
              · intro t
                simp [hv1 t, ih1 t]
              · simp [hv2, ih2]

/-- A resume pass never emits a detach event, whatever its outcome. -/
lemma resumeDrain_no_detach (ch : Channel) : ∀ tids evs r,
    resumeDrain ch tids = (evs, r) → Event.detach ∉ evs := by
  intro tids
  induction tids with
  | nil =>
    intro evs r h
    simp only [resumeDrain, Prod.mk.injEq] at h
    obtain ⟨rfl, -⟩ := h
    simp
  | cons tid rest ih =>
    intro evs r h
    cases hres : ch.resumeThread tid with
    | ok u =>
      cases u
      simp only [resumeDrain, hres] at h
      cases hd : resumeDrain ch rest with
      | mk evs' r' =>
        rw [hd] at h
        simp only [Prod.mk.injEq] at h
        obtain ⟨rfl, -⟩ := h
        simp [ih _ _ hd]
    | error err =>
      simp only [resumeDrain, hres] at h
      by_cases hb : err = .alreadyInUse ∨ err = .notFound ∨ err = .notReady
      · rw [if_pos hb] at h
        cases hd : resumeDrain ch rest with
        | mk evs' r' =>
          rw [hd] at h
          simp only [Prod.mk.injEq] at h
          obtain ⟨rfl, -⟩ := h
          simp [ih _ _ hd]
      · rw [if_neg hb] at h
        simp only [Prod.mk.injEq] at h
        obtain ⟨rfl, -⟩ := h
        simp

/-- A resume pass that completed (its `assert!` never fired) only resumed
threads whose outcome was success or one of the three tolerated errors:
contrapositively, any call answered with an out-of-set error stops the
pass with a panic. -/
lemma resumeDrain_completed_benign (ch : Channel) : ∀ tids evs,
    resumeDrain ch tids = (evs, some ()) →
    ∀ t, Event.resumeThread t ∈ evs →
      ch.resumeThread t = .ok () ∨ ch.resumeThread t = .error .alreadyInUse ∨
      ch.resumeThread t = .error .notFound ∨ ch.resumeThread t = .error .notReady := by
  intro tids
  induction tids with
  | nil =>
    intro evs h t ht
    simp only [resumeDrain, Prod.mk.injEq] at h
    obtain ⟨rfl, -⟩ := h
    simp at ht
  | cons tid rest ih =>
    intro evs h t ht
    cases hres : ch.resumeThread tid with
    | ok u =>
      cases u
      simp only [resumeDrain, hres] at h
      cases hd : resumeDrain ch rest with
      | mk evs' r' =>
        rw [hd] at h
        simp only [Prod.mk.injEq] at h
        obtain ⟨rfl, hr⟩ := h
        rcases List.mem_cons.mp ht with he | he
        · have het : t = tid := by simpa using he
          subst het
          exact Or.inl hres
        · rw [hr] at hd
          exact ih evs' hd t he
    | error err =>
      simp only [resumeDrain, hres] at h
      by_cases hb : err = .alreadyInUse ∨ err = .notFound ∨ err = .notReady
      · rw [if_pos hb] at h
        cases hd : resumeDrain ch rest with
        | mk evs' r' =>
          rw [hd] at h
          simp only [Prod.mk.injEq] at h
          obtain ⟨rfl, hr⟩ := h
          rcases List.mem_cons.mp ht with he | he
          · have het : t = tid := by simpa using he
            subst het
            rcases hb with hb | hb | hb
            · exact Or.inr (Or.inl (by rw [hres, hb]))
            · exact Or.inr (Or.inr (Or.inl (by rw [hres, hb])))
            · exact Or.inr (Or.inr (Or.inr (by rw [hres, hb])))
          · rw [hr] at hd
            exact ih evs' hd t he
      · rw [if_neg hb] at h
        simp at h

/-- The re-scan loop never emits a detach event, and unless it panicked,
every resume call it made was answered with success or a tolerated
error. -/
lemma rescanLoop_shape (ch : Channel) : ∀ fuel s evs r,
    rescanLoop ch fuel s = (evs, r) →
    Event.detach ∉ evs ∧
    (r ≠ .panicked → ∀ t, Event.resumeThread t ∈ evs →
      ch.resumeThread t = .ok () ∨ ch.resumeThread t = .error .alreadyInUse ∨
      ch.resumeThread t = .error .notFound ∨ ch.resumeThread t = .error .notReady) := by
  intro fuel
  induction fuel with
  | zero =>
    intro s evs r h
    simp only [rescanLoop, Prod.mk.injEq] at h
    obtain ⟨rfl, -⟩ := h
    exact ⟨by simp, fun _ t ht => absurd ht (by simp)⟩
  | succ n ih =>
    intro s evs r h
    cases hl : ch.listThreads2 (s + 1) with
    | error e =>
      simp only [rescanLoop, hl, Prod.mk.injEq] at h
      obtain ⟨rfl, -⟩ := h
      exact ⟨by simp, fun _ t ht => absurd ht (by simp)⟩
    | ok page =>
      simp only [rescanLoop, hl] at h
      by_cases hp : page = []
      · rw [dif_pos hp] at h
        simp only [Prod.mk.injEq] at h
        obtain ⟨rfl, -⟩ := h
        exact ⟨by simp, fun _ t ht => absurd ht (by simp)⟩
      · rw [dif_neg hp] at h
        cases hv : resumeDrain ch page with
        | mk evs1 r1 =>
          have hnd1 := resumeDrain_no_detach ch page evs1 r1 hv
          cases r1 with
          | none =>
            rw [hv] at h
            simp only [Prod.mk.injEq] at h
            obtain ⟨rfl, hr⟩ := h
            exact ⟨by simp [hnd1], fun hne => absurd hr.symm hne⟩
          | some u =>
            cases u
            have hben1 := resumeDrain_completed_benign ch page evs1 hv
            cases hrec : rescanLoop ch n (page.getLast hp + 1) with
            | mk evs2 r2 =>
              rw [hv, hrec] at h
              simp only [Prod.mk.injEq] at h
              obtain ⟨rfl, hr⟩ := h
              obtain ⟨ihd, ihb⟩ := ih _ _ _ hrec
              refine ⟨by simp [hnd1, ihd], ?_⟩
              intro hne t ht
              rcases List.mem_cons.mp ht with he | he
              · exact absurd he (by simp)
              · rcases List.mem_append.mp he with he | he
                · exact hben1 t he
                · exact ihb (by rw [hr]; exact hne) t he

/-- Any per-thread resume answered with an error outside the tolerated
set {`AlreadyInUse`, `NotFound`, `NotReady`} aborts the command: the
session panics (the `assert!` fires at that call) and `dbg_detach` is
never reached. -/
lemma cmd_fatal_resume_aborts (ch : Channel) (fuel : Nat) (err : ErrorCode) (tid : Nat)
    (h1 : err ≠ .alreadyInUse) (h2 : err ≠ .notFound) (h3 : err ≠ .notReady)
    (hres : ch.resumeThread tid = .error err)
    (hmem : Event.resumeThread tid ∈ (cmd_print_stacks ch fuel).1) :
    (cmd_print_stacks ch fuel).2 = Outcome.panicked ∧
    Event.detach ∉ (cmd_print_stacks ch fuel).1 := by
  have hnb : ¬(ch.resumeThread tid = .ok () ∨ ch.resumeThread tid = .error .alreadyInUse ∨
      ch.resumeThread tid = .error .notFound ∨ ch.resumeThread tid = .error .notReady) := by
    rw [hres]
    rintro (hb | hb | hb | hb)
    · exact Except.noConfusion hb
    · injection hb with hb; exact h1 hb
    · injection hb with hb; exact h2 hb
    · injection hb with hb; exact h3 hb
  cases ha : ch.attach with
  | error e =>
    simp only [cmd_print_stacks, ha] at hmem
    simp at hmem
  | ok u =>
    cases u
    cases hpa : ch.pause with
    | error e =>
      simp only [cmd_print_stacks, ha, hpa] at hmem
      simp at hmem
    | ok u =>
      cases u
      cases hs : snapshotLoop ch fuel 0 [] with
      | mk e1 r1 =>
        obtain ⟨hs1, hs2⟩ := snapshotLoop_shape ch fuel 0 [] e1 r1 hs
        cases r1 with
        | panicked =>
          constructor
          · simp [cmd_print_stacks, ha, hpa, hs]
          · simp only [cmd_print_stacks, ha, hpa, hs]
            simp [hs2]
        | fuelOut =>
          simp only [cmd_print_stacks, ha, hpa, hs] at hmem
          simp at hmem
          exact absurd hmem (hs1 tid)
        | ok pr =>
          obtain ⟨tids, st⟩ := pr
          cases hrp : ch.resumeProcess with
          | error e =>
            constructor
            · simp [cmd_print_stacks, ha, hpa, hs, hrp]
            · simp only [cmd_print_stacks, ha, hpa, hs, hrp]
              simp [hs2]
          | ok u =>
            cases u
            cases hd : resumeDrain ch tids with
            | mk e2 r2 =>
              have hd2 := resumeDrain_no_detach ch tids e2 r2 hd
              cases r2 with
              | none =>
                constructor
                · simp [cmd_print_stacks, ha, hpa, hs, hrp, hd]
                · simp only [cmd_print_stacks, ha, hpa, hs, hrp, hd]
                  simp [hs2, hd2]
              | some u =>
                cases u
                have hben2 := resumeDrain_completed_benign ch tids e2 hd
                cases hre : rescanLoop ch fuel st with
                | mk e3 r3 =>
                  obtain ⟨hrd3, hrb3⟩ := rescanLoop_shape ch fuel st e3 r3 hre
                  cases r3 with
                  | panicked =>
                    constructor
                    · simp [cmd_print_stacks, ha, hpa, hs, hrp, hd, hre]
                    · simp only [cmd_print_stacks, ha, hpa, hs, hrp, hd, hre]
                      simp [hs2, hd2, hrd3]
                  | fuelOut =>
                    simp only [cmd_print_stacks, ha, hpa, hs, hrp, hd, hre] at hmem
                    simp at hmem
                    rcases hmem with hm | hm | hm
                    · exact absurd hm (hs1 tid)
                    · exact (hnb (hben2 tid hm)).elim
                    · exact (hnb (hrb3 (by simp) tid hm)).elim
                  | ok u =>
                    cases u
                    have hbenign3 := hrb3 (by simp)
                    cases hdet : ch.detach with
                    | error e =>
                      simp only [cmd_print_stacks, ha, hpa, hs, hrp, hd, hre, hdet] at hmem
                      simp at hmem
                      rcases hmem with hm | hm | hm
                      · exact absurd hm (hs1 tid)
                      · exact (hnb (hben2 tid hm)).elim
                      · exact (hnb (hbenign3 tid hm)).elim
                    | ok u =>
                      cases u
                      cases hput : ch.put with
                      | ok u =>
                        cases u
                        simp only [cmd_print_stacks, ha, hpa, hs, hrp, hd, hre, hdet,
                          hput] at hmem
                        simp at hmem
                        rcases hmem with hm | hm | hm
                        · exact absurd hm (hs1 tid)
                        · exact (hnb (hben2 tid hm)).elim
                        · exact (hnb (hbenign3 tid hm)).elim
                      | error pe =>
                        by_cases hpe : pe = .badHandle
                        · subst hpe
                          simp only [cmd_print_stacks, ha, hpa, hs, hrp, hd, hre, hdet,
                            hput] at hmem
                          simp at hmem
                          rcases hmem with hm | hm | hm
                          · exact absurd hm (hs1 tid)
                          · exact (hnb (hben2 tid hm)).elim
                          · exact (hnb (hbenign3 tid hm)).elim
                        · simp only [cmd_print_stacks, ha, hpa, hs, hrp, hd, hre, hdet,
                            hput, if_neg hpe] at hmem
                          simp at hmem
                          rcases hmem with hm | hm | hm
                          · exact absurd hm (hs1 tid)
                          · exact (hnb (hben2 tid hm)).elim
                          · exact (hnb (hbenign3 tid hm)).elim

/-- C8: (i) over the spec-modelled transport, if every per-thread resume
outcome is success or one of the tolerated errors (`AlreadyInUse`,
`NotFound`, `NotReady`), the session always reaches `dbg_detach`, whatever
the resume outcomes were; (ii) for every channel, every thread and every
error outside that set: if a `resume_thread` call of the session is
answered with that error, the command aborts (panic via `assert!`) and
`detach` is never reached. -/
theorem claim_C8_tolerated_resume_errors :
    (∀ (threads threads2 : List Nat) (tdata : Nat → Except ErrorCode ThreadDataV1)
        (mem : Nat → Option Nat) (resume : Nat → Except ErrorCode Unit)
        (put : Except ErrorCode Unit) (fuel : Nat),
      (∀ tid, ∃ td, tdata tid = .ok td) →
      (∀ t, resume t = .ok () ∨ resume t = .error .alreadyInUse ∨
        resume t = .error .notFound ∨ resume t = .error .notReady) →
      threads.length < fuel → threads2.length < fuel →
      Event.detach ∈
        (cmd_print_stacks (specChannel threads threads2 tdata mem resume put) fuel).1) ∧
    (∀ (ch : Channel) (fuel : Nat) (err : ErrorCode) (tid : Nat),
      err ≠ .alreadyInUse → err ≠ .notFound → err ≠ .notReady →
      ch.resumeThread tid = .error err →
      Event.resumeThread tid ∈ (cmd_print_stacks ch fuel).1 →
      (cmd_print_stacks ch fuel).2 = Outcome.panicked ∧
      Event.detach ∉ (cmd_print_stacks ch fuel).1) := by
  constructor
  · intro threads threads2 tdata mem resume put fuel htd hben h1 h2
    have h8 : ∀ a v s, (specChannel threads threads2 tdata mem resume put).getMem a =
        some (v, s) → s = 8 := by
      intro a v sz h
      rcases hm : mem a with _ | w
      · simp [specChannel, hm] at h
      · simp [specChannel, hm] at h
        omega
    obtain ⟨e1, tids, st, hs⟩ :=
      snapshotLoop_spec_ok (specChannel threads threads2 tdata mem resume put) threads
        (fun s => rfl) htd h8 fuel 0 []
        (by have := List.length_filter_le (fun t => decide (0 + 1 ≤ t)) threads; omega)
    obtain ⟨e2, hd⟩ :=
      resumeDrain_ok_of_benign (specChannel threads threads2 tdata mem resume put) hben tids
    obtain ⟨e3, hre⟩ :=
      rescanLoop_spec_ok (specChannel threads threads2 tdata mem resume put) threads2
        (fun s => rfl) hben fuel st
        (by have := List.length_filter_le (fun t => decide (st + 1 ≤ t)) threads2; omega)
    exact cmd_detach_mem (specChannel threads threads2 tdata mem resume put) fuel
      rfl rfl e1 tids st hs rfl e2 hd e3 hre rfl
  · intro ch fuel err tid h1 h2 h3 hres hmem
    exact cmd_fatal_resume_aborts ch fuel err tid h1 h2 h3 hres hmem

/-- Witness for C8 on concrete sessions: (i) thread 1's resume fails with
the tolerated `NotFound` (it exited during the freeze), thread 2's
succeeds; detach is still reached; (ii) with `InvalidArgument` and with
`BadHandle` — two different errors outside the tolerated set — the
command panics and detach is never reached. -/
theorem claim_C8_witness :
    ((∀ t : Nat, (if t = 1 then (Except.error ErrorCode.notFound : Except ErrorCode Unit)
        else .ok ()) = .ok () ∨
      (if t = 1 then (Except.error ErrorCode.notFound : Except ErrorCode Unit)
        else .ok ()) = .error .alreadyInUse ∨
      (if t = 1 then (Except.error ErrorCode.notFound : Except ErrorCode Unit)
        else .ok ()) = .error .notFound ∨
      (if t = 1 then (Except.error ErrorCode.notFound : Except ErrorCode Unit)
        else .ok ()) = .error .notReady) ∧
    Event.detach ∈
      (cmd_print_stacks
        (specChannel [1, 2] [] (fun _ => .ok tdIdle) (fun _ => none)
          (fun t => if t = 1 then .error .notFound else .ok ()) (.error .badHandle)) 3).1) ∧
    ((cmd_print_stacks chResumeFatal 3).2 = Outcome.panicked ∧
      Event.detach ∉ (cmd_print_stacks chResumeFatal 3).1) ∧
    ((cmd_print_stacks chResumeBad 3).2 = Outcome.panicked ∧
      Event.detach ∉ (cmd_print_stacks chResumeBad 3).1) := by
  have hben : ∀ t : Nat, (if t = 1 then (Except.error ErrorCode.notFound : Except ErrorCode Unit)
      else .ok ()) = .ok () ∨
      (if t = 1 then (Except.error ErrorCode.notFound : Except ErrorCode Unit)
        else .ok ()) = .error .alreadyInUse ∨
      (if t = 1 then (Except.error ErrorCode.notFound : Except ErrorCode Unit)
        else .ok ()) = .error .notFound ∨
      (if t = 1 then (Except.error ErrorCode.notFound : Except ErrorCode Unit)
        else .ok ()) = .error .notReady := by
    intro t
    by_cases h : t = 1 <;> simp [h]
  refine ⟨⟨hben,
    claim_C8_tolerated_resume_errors.1 [1, 2] [] (fun _ => .ok tdIdle) (fun _ => none)
      (fun t => if t = 1 then .error .notFound else .ok ()) (.error .badHandle) 3
      (fun tid => ⟨tdIdle, rfl⟩) hben (by decide) (by decide)⟩, ?_, ?_⟩
  · exact claim_C8_tolerated_resume_errors.2 chResumeFatal 3 .invalidArgument 1
      (by decide) (by decide) (by decide) rfl (by decide)
  · exact claim_C8_tolerated_resume_errors.2 chResumeBad 3 .badHandle 1
      (by decide) (by decide) (by decide) rfl (by decide)

/-! ### C9 — detach invalidates the handle and the session verifies it -/

/-- Channel for the C9 witness: spec-modelled invalidation — after
`dbg_detach`, using the handle (`SysObj::put`) is rejected with
`BadHandle`. -/
def chDetachCheck : Channel :=
  specChannel [] [] (fun _ => .ok tdIdle) (fun _ => none) (fun _ => .ok ())
    (.error .badHandle)

/-- C9: (i) in every completed session the post-detach use of the handle
was rejected with exactly `BadHandle` — had it silently succeeded (or
failed otherwise), the session's closing `assert_eq!` would have panicked
instead of completing — and the event trace ends with `detach` followed by
the handle-check; (ii) with the spec-modelled channel (detach invalidates
the handle immediately), the session completes. -/
theorem claim_C9_detach_invalidates_handle :
    (∀ (ch : Channel) (fuel : Nat), (cmd_print_stacks ch fuel).2 = Outcome.completed →
      ch.put = .error .badHandle ∧
      ∃ pre, (cmd_print_stacks ch fuel).1 = pre ++ [Event.detach, Event.put]) ∧
    (cmd_print_stacks chDetachCheck 2).2 = Outcome.completed := by
  constructor
  · intro ch fuel h
    obtain ⟨e1, tids, st, e2, e3, hs, hd, hre, hevs, hput⟩ := cmd_completed_inv ch fuel h
    refine ⟨hput, Event.pauseProcess :: e1 ++ Event.resumeProcess :: (e2 ++ e3), ?_⟩
    rw [hevs]
    simp
  · decide

/-- Witness for C9 on a concrete completed session. -/
theorem claim_C9_witness :
    (cmd_print_stacks chDetachCheck 2).2 = Outcome.completed ∧
    chDetachCheck.put = .error .badHandle ∧
    ∃ pre, (cmd_print_stacks chDetachCheck 2).1 = pre ++ [Event.detach, Event.put] := by
  have h := claim_C9_detach_invalidates_handle.1 chDetachCheck 2 (by decide)
  exact ⟨by decide, h.1, h.2⟩

end Mdbg
